import Mathlib

/-!
# traccc: the seeding example driver, the seed-finding pipeline, geometry objects

A shallow embedding of the parts of the repository that the specification
talks about.

* `seq_run` of `examples/run/cuda/seq_example_cuda.cpp`: the event loop, the
  order in which the algorithms are called, the statistics counters and the
  track finding loop.  The algorithm objects it constructs
  (`clusterization_algorithm`, `spacepoint_formation`, `seeding_algorithm`,
  `track_params_estimation`, their CUDA counterparts, `read_cells` and the
  track finder) are defined elsewhere in the library and their source is
  missing here; the driver takes them as a record of functions
  (`Algorithms`).
* The components of the seed-finding pipeline (clusterer, spacepoint builder,
  spacepoint grid, seed finder, track parameter estimator), whose source is
  missing, are modelled from sections 3 to 5 of the specification; every such
  definition says so in its comment.  They are plugged into the driver by
  `referenceAlgorithms`.
* `GeometryObject` of `core/include/traccc/geometry/GeometryObject.hpp`, the
  enumeration `AlignmentIndices` of `definitions/Alignment.hpp`, the error
  enumerations of `TrackFinding/CombinatorialKalmanFilterError.hpp` and
  `Surfaces/SurfaceError.hpp`, and the conversions to curvilinear parameters
  declared in `edm/detail/TransformationFreeToBound.hpp`.

Floating point scalars are embedded as rationals, `unsigned int` as a natural
number reduced modulo `2 ^ 32`, `uint64_t` modulo `2 ^ 64`.

The file has two parts: the definitions, then the theorems.
-/

namespace traccc

/-! ## Event data model (specification, section 3)

The headers of the event data model are missing; the types follow the
specification. -/

/-- Scalar type of the event data model (exact arithmetic instead of floats). -/
abbrev scalar := Rat

/-- Modelled from the spec: a cell, one activated sensor element: integer
channel coordinates, an activation value and a reference to its owning
module. -/
structure cell where
  channel0 : Nat
  channel1 : Nat
  activation : scalar
  module_link : Nat
deriving DecidableEq, Repr

/-- Modelled from the spec: a measurement, a local 2D position with its
variance along each direction and a module reference. -/
structure measurement where
  local0 : scalar
  local1 : scalar
  variance0 : scalar
  variance1 : scalar
  module_link : Nat
deriving DecidableEq, Repr

/-- Modelled from the spec: a global 3D position (also used for the field
vector, a `vector3` in the source). -/
structure point3 where
  x : scalar
  y : scalar
  z : scalar
deriving DecidableEq, Repr

/-- Modelled from the spec: a spacepoint, a global 3D position with the
provenance links to the one or two measurements that produced it. -/
structure spacepoint where
  global : point3
  meas : Nat
  meas2 : Option Nat
deriving DecidableEq, Repr

/-- Modelled from the spec: a seed, an ordered triplet (bottom, middle, top) of
spacepoint references plus the quality score. -/
structure seed where
  spB_link : Nat
  spM_link : Nat
  spT_link : Nat
  weight : scalar
deriving DecidableEq, Repr

/-- Modelled from the spec: a track parameter estimate, the parameter vector
(position, direction, inverse momentum, time) and the entries of its
covariance. -/
structure bound_track_parameters where
  vector : List scalar
  covariance : List scalar
deriving DecidableEq, Repr

/-! ## Configuration -/

/-- Modelled from the spec: `seedfinder_config` is declared in a header that is
missing. `bFieldInZ` is the member read at lines 375 and 385 (the field
magnitude along the detector axis); the others are the thresholds of the hard
cuts of section 4.4: the largest impact parameter, the smallest transverse
momentum, the z0 bound and the helix-consistency bound. -/
structure seedfinder_config where
  bFieldInZ : scalar
  impactMax : scalar
  minPt : scalar
  z0Max : scalar
  helixMax : scalar
deriving DecidableEq, Repr

/-- Modelled from the spec: `seedfilter_config` is declared in a header that is
missing; it carries the two capacities of the configuration surface, the
largest number of seeds per middle spacepoint and the largest number of seeds
per event. -/
structure seedfilter_config where
  maxSeedsPerSpM : Nat
  maxSeeds : Nat
deriving DecidableEq, Repr

/-! ## `seq_run`: the track finding loop (lines 197-212 and 390-418) -/

/-- Modulus of `unsigned int`. -/
def UINT_MOD : Nat := 2 ^ 32

/-- Modulus of `uint64_t`. -/
def UINT64_MOD : Nat := 2 ^ 64

/-- A track proxy of the `TrackContainer`: what the finder produced (kept
abstract as a number) and the dynamic column `trackGroup` added at lines
208-209. -/
structure Track where
  content : Nat
  trackGroup : Nat
deriving DecidableEq, Repr

/-- Result of `(*tf.findTracks)(params.at(iseed), options, tracksTemp)`:
either an error code or the tracks found for the seed. -/
abbrev FindResult := Except Nat (List Track)

/-- The variables that live across the event loop and that the track finding
loop reads and writes: the output container `tracks` (line 205), `nSeed`
(line 212), the two counters `m_nTotalSeeds` and `m_nFailedSeeds` (used at
lines 397 and 401; they are not declared in the file and count without bound
here), and the lines printed for failed seeds as pairs (`iseed`, error
code). -/
structure TrackFindingState where
  tracks : List Track
  nSeed : Nat
  m_nTotalSeeds : Nat
  m_nFailedSeeds : Nat
  failures : List (Nat × Nat)
deriving DecidableEq, Repr

/-- State at lines 197-212: empty containers, `nSeed = 0`. -/
def TrackFindingState.init : TrackFindingState :=
  { tracks := [], nSeed := 0, m_nTotalSeeds := 0, m_nFailedSeeds := 0, failures := [] }

/-- The test `!m_trackSelector.has_value() || m_trackSelector->isValidTrack(track)`
of lines 411-412. -/
def isSelected (m_trackSelector : Option (Track → Bool)) (track : Track) : Bool :=
  match m_trackSelector with
  | none => true
  | some isValidTrack => isValidTrack track

/-- One iteration of the loop over `iseed` (lines 392-416).  `tracksTemp` is
cleared at the top of the body, so the finder sees it empty every time.  The
token `resul;t` of line 400 is read as `result`. -/
def trackFindingBody (findTracks : bound_track_parameters → FindResult)
    (m_trackSelector : Option (Track → Bool)) (st : TrackFindingState) (iseed : Nat)
    (p : bound_track_parameters) : TrackFindingState :=
  let result := findTracks p
  let total := st.m_nTotalSeeds + 1
  let nSeed := (st.nSeed + 1) % UINT_MOD
  match result with
  | .error e =>
    { st with
      nSeed := nSeed
      m_nTotalSeeds := total
      m_nFailedSeeds := st.m_nFailedSeeds + 1
      failures := st.failures ++ [(iseed, e)] }
  | .ok tracksForSeed =>
    let numbered := tracksForSeed.map
      (fun track => { track with trackGroup := (nSeed + UINT_MOD - 1) % UINT_MOD })
    { st with
      tracks := st.tracks ++ numbered.filter (isSelected m_trackSelector)
      nSeed := nSeed
      m_nTotalSeeds := total }

/-- The loop `for (iseed = 0; iseed < params.size(); ++iseed)` of line 391,
started at index `iseed` on the remaining parameters. -/
def trackFindingLoop (findTracks : bound_track_parameters → FindResult)
    (m_trackSelector : Option (Track → Bool)) :
    Nat → List bound_track_parameters → TrackFindingState → TrackFindingState
  | _, [], st => st
  | iseed, p :: rest, st =>
    trackFindingLoop findTracks m_trackSelector (iseed + 1) rest
      (trackFindingBody findTracks m_trackSelector st iseed p)

/-! ## `seq_run`: the event loop (lines 107-528) -/

/-- Output of `read_cells` for one event. -/
structure cell_reader_output where
  cells : List cell
  modules : List Nat
deriving DecidableEq, Repr

/-- The objects `seq_run` constructs before the event loop (lines 129-154 and
214-227) and the reader it calls; they are defined in other translation
units. -/
structure Algorithms where
  read_cells : Nat → cell_reader_output
  ca : List cell → List Nat → List measurement
  sf : List measurement → List Nat → List spacepoint
  sa : List spacepoint → List seed
  tp : List spacepoint → List seed → point3 → List bound_track_parameters
  ca_cuda : List cell → List Nat → List spacepoint
  sa_cuda : List spacepoint → List seed
  tp_cuda : List spacepoint → List seed → point3 → List bound_track_parameters
  findTracks : bound_track_parameters → FindResult
  m_trackSelector : Option (Track → Bool)
  finder_config : seedfinder_config

/-- The collections of one iteration of the event loop, as they stand at the
statistics block (lines 481-488). -/
structure EventCollections where
  read_out_per_event : cell_reader_output
  measurements_per_event : List measurement
  spacepoints_per_event : List spacepoint
  seeds : List seed
  params : List bound_track_parameters
  spacepoints_per_event_cuda : List spacepoint
  seeds_cuda : List seed
  params_cuda : List bound_track_parameters
deriving DecidableEq, Repr

/-- The statistics counters of lines 119-126 (`uint64_t`). -/
structure Statistics where
  n_cells : Nat
  n_modules : Nat
  n_measurements : Nat
  n_spacepoints : Nat
  n_spacepoints_cuda : Nat
  n_seeds : Nat
  n_seeds_cuda : Nat
deriving DecidableEq, Repr

/-- Everything that lives across iterations of the event loop. -/
structure RunState where
  stats : Statistics
  finding : TrackFindingState
deriving DecidableEq, Repr

/-- State on entry to the event loop. -/
def RunState.init : RunState :=
  { stats := { n_cells := 0, n_modules := 0, n_measurements := 0, n_spacepoints := 0,
               n_spacepoints_cuda := 0, n_seeds := 0, n_seeds_cuda := 0 }
    finding := TrackFindingState.init }

/-- The magnetic field argument `{0.f, 0.f, finder_config.bFieldInZ}` of lines
375 and 385. -/
def fieldVector (alg : Algorithms) : point3 :=
  { x := 0, y := 0, z := alg.finder_config.bFieldInZ }

/-- Lines 236-386 and 428-455 for one event: the host collections start empty
and the CPU chain only runs under `run_cpu`; the CUDA chain always runs. -/
def eventCollections (alg : Algorithms) (run_cpu : Bool) (event : Nat) : EventCollections :=
  let read_out := alg.read_cells event
  let spacepoints_cuda := alg.ca_cuda read_out.cells read_out.modules
  let measurements := if run_cpu then alg.ca read_out.cells read_out.modules else []
  let spacepoints := if run_cpu then alg.sf measurements read_out.modules else []
  let seeds_cuda := alg.sa_cuda spacepoints_cuda
  let seeds := if run_cpu then alg.sa spacepoints else []
  let params_cuda := alg.tp_cuda spacepoints_cuda seeds_cuda (fieldVector alg)
  let params := if run_cpu then alg.tp spacepoints seeds (fieldVector alg) else []
  { read_out_per_event := read_out
    measurements_per_event := measurements
    spacepoints_per_event := spacepoints
    seeds := seeds
    params := params
    spacepoints_per_event_cuda := spacepoints_cuda
    seeds_cuda := seeds_cuda
    params_cuda := params_cuda }

/-- The statistics block of lines 481-488. -/
def updateStatistics (s : Statistics) (c : EventCollections) : Statistics :=
  { n_modules := (s.n_modules + c.read_out_per_event.modules.length) % UINT64_MOD
    n_cells := (s.n_cells + c.read_out_per_event.cells.length) % UINT64_MOD
    n_measurements := (s.n_measurements + c.measurements_per_event.length) % UINT64_MOD
    n_spacepoints := (s.n_spacepoints + c.spacepoints_per_event.length) % UINT64_MOD
    n_seeds := (s.n_seeds + c.seeds.length) % UINT64_MOD
    n_spacepoints_cuda :=
      (s.n_spacepoints_cuda + c.spacepoints_per_event_cuda.length) % UINT64_MOD
    n_seeds_cuda := (s.n_seeds_cuda + c.seeds_cuda.length) % UINT64_MOD }

/-- Track finding of lines 390-418 for one event: skipped without `run_cpu`. -/
def eventTrackFinding (alg : Algorithms) (run_cpu : Bool) (params : List bound_track_parameters)
    (st : TrackFindingState) : TrackFindingState :=
  if run_cpu then trackFindingLoop alg.findTracks alg.m_trackSelector 0 params st else st

/-- One iteration of the event loop (lines 232-506). -/
def eventStep (alg : Algorithms) (run_cpu : Bool) (st : RunState) (event : Nat) : RunState :=
  let c := eventCollections alg run_cpu event
  { stats := updateStatistics st.stats c
    finding := eventTrackFinding alg run_cpu c.params st.finding }

/-- The event loop over the given event numbers, in order. -/
def eventLoop (alg : Algorithms) (run_cpu : Bool) (events : List Nat) (st : RunState) :
    RunState :=
  events.foldl (eventStep alg run_cpu) st

/-- The routine `seq_run`: the events `skip, ..., skip + events - 1` are
processed in order (lines 232-233; the option fields are declared in a header
that is missing, and their sum is taken not to wrap around) and the returned
value 0 (line 526) is paired with the final state.  The performance writer and
the printed statistics are output only and are left out. -/
def seq_run (alg : Algorithms) (events skip : Nat) (run_cpu : Bool) : Int × RunState :=
  (0, eventLoop alg run_cpu (List.range' skip events) RunState.init)

/-- The tracks that the iteration for `event` appends to the output container
when it starts from the state `st`. -/
def tracksAddedFor (alg : Algorithms) (run_cpu : Bool) (st : RunState) (event : Nat) :
    List Track :=
  ((eventStep alg run_cpu st event).finding.tracks).drop st.finding.tracks.length

/-- Seed number `g` moved on by the `offset` seeds counted before (`unsigned int`
arithmetic). -/
def renumber (offset : Nat) (track : Track) : Track :=
  { track with trackGroup := (offset + track.trackGroup) % UINT_MOD }

/-- The tracks of the seed with parameters `p` that reach the output container
when the seed is given the number `g`. -/
def tracksOfSeed (findTracks : bound_track_parameters → FindResult)
    (m_trackSelector : Option (Track → Bool)) (g : Nat) (p : bound_track_parameters) :
    List Track :=
  match findTracks p with
  | .error _ => []
  | .ok tracksForSeed =>
    (tracksForSeed.map (fun track => { track with trackGroup := g })).filter
      (isSelected m_trackSelector)

/-- The tracks that the iteration with index `iseed` of the loop over `params`
copies to the output container, when the loop is entered in the state `st`:
what the body appends to `tracks` in the state reached after the iterations
before it. -/
def tracksAddedAt (findTracks : bound_track_parameters → FindResult)
    (m_trackSelector : Option (Track → Bool)) (params : List bound_track_parameters)
    (st : TrackFindingState) (iseed : Nat) : List Track :=
  match params[iseed]? with
  | none => []
  | some p =>
    let before := trackFindingLoop findTracks m_trackSelector 0 (params.take iseed) st
    ((trackFindingBody findTracks m_trackSelector before iseed p).tracks).drop
      before.tracks.length

/-- A small concrete set of algorithms used to run the driver: every event has
one cell, each stage keeps one object per input object, and the finder returns
one track per seed. -/
def demoAlgorithms : Algorithms :=
  { read_cells := fun event =>
      { cells := [{ channel0 := event, channel1 := 0, activation := 1, module_link := 0 }]
        modules := [0] }
    ca := fun cells _ => cells.map (fun c =>
      { local0 := c.channel0, local1 := c.channel1, variance0 := 1, variance1 := 1,
        module_link := c.module_link })
    sf := fun ms _ => ms.map (fun m =>
      { global := { x := m.local0, y := m.local1, z := 0 }, meas := 0, meas2 := none })
    sa := fun sps => sps.map (fun _ => { spB_link := 0, spM_link := 0, spT_link := 0, weight := 1 })
    tp := fun _ seeds _ => seeds.map (fun _ => { vector := [], covariance := [] })
    ca_cuda := fun cells _ => cells.map (fun c =>
      { global := { x := c.channel0, y := c.channel1, z := 0 }, meas := 0, meas2 := none })
    sa_cuda := fun sps =>
      sps.map (fun _ => { spB_link := 0, spM_link := 0, spT_link := 0, weight := 1 })
    tp_cuda := fun _ seeds _ => seeds.map (fun _ => { vector := [], covariance := [] })
    findTracks := fun _ => .ok [{ content := 7, trackGroup := 0 }]
    m_trackSelector := none
    finder_config := { bFieldInZ := 2, impactMax := 10, minPt := 1, z0Max := 100, helixMax := 1 } }

/-- The same algorithms with a seeding that never finds a seed. -/
def seedlessAlgorithms : Algorithms :=
  { demoAlgorithms with sa := fun _ => [], sa_cuda := fun _ => [] }

/-- The algorithms `demoAlgorithms` with track parameter estimations that hand
back, as the parameter vector of one estimate, the three components of the
magnetic field vector they were called with. -/
def probeAlgorithms : Algorithms :=
  { demoAlgorithms with
    tp := fun _ _ bfield => [{ vector := [bfield.x, bfield.y, bfield.z], covariance := [] }]
    tp_cuda := fun _ _ bfield =>
      [{ vector := [bfield.x, bfield.y, bfield.z], covariance := [] }] }

/-! ## Clusterer (specification, section 4.1) -/

/-- Modelled from the spec: two cells are adjacent when their channel
coordinates differ by at most one unit in each direction (8-connectivity). -/
def is_adjacent (a b : cell) : Bool :=
  (decide (a.channel0 ≤ b.channel0 + 1) && decide (b.channel0 ≤ a.channel0 + 1)) &&
    (decide (a.channel1 ≤ b.channel1 + 1) && decide (b.channel1 ≤ a.channel1 + 1))

/-- Modelled from the spec: a cell touches a cluster when it is adjacent to one
of its cells. -/
def touches (c : cell) (cluster : List cell) : Bool := cluster.any (is_adjacent c)

/-- Modelled from the spec: a cell joins the clusters found so far: the
clusters it touches are merged with it into one cluster, the others stay. -/
def add_cell (clusters : List (List cell)) (c : cell) : List (List cell) :=
  (c :: (clusters.filter (touches c)).flatten) :: clusters.filter (fun cl => !touches c cl)

/-- Modelled from the spec: the partition of the cells of one module into clusters
of mutually adjacent cells (`clusterization_algorithm`, constructed at line
139, is defined elsewhere in the library, its source is missing). -/
def clusters_of (cells : List cell) : List (List cell) := cells.foldl add_cell []

/-- Modelled from the spec: the extent of a cluster along one channel
direction, the number of channels between the lowest and the highest one. -/
def extent (channels : List Nat) : Nat :=
  channels.foldr max 0 - channels.foldr min (channels.foldr max 0) + 1

/-- Modelled from the spec: the measurement of a cluster: the
activation-weighted centroid of its cells, and a variance derived from the
extent of the cluster along each channel by `variance` (which contains the
fixed digitization uncertainty and the floor; its formula is not given). -/
def measurement_of (variance : Nat → scalar) (module : Nat) (cluster : List cell) :
    measurement :=
  let total := (cluster.map (fun c => c.activation)).sum
  { local0 := (cluster.map (fun c => c.activation * (c.channel0 : scalar))).sum / total
    local1 := (cluster.map (fun c => c.activation * (c.channel1 : scalar))).sum / total
    variance0 := variance (extent (cluster.map (fun c => c.channel0)))
    variance1 := variance (extent (cluster.map (fun c => c.channel1)))
    module_link := module }

/-- Modelled from the spec: the measurements of one module, one per cluster. -/
def clusterize_module (variance : Nat → scalar) (module : Nat) (cells : List cell) :
    List measurement :=
  (clusters_of cells).map (measurement_of variance module)

/-- Modelled from the spec: clusterization of an event, module by module; the
clusters of a module are independent of the other modules. -/
def clusterization_algorithm (variance : Nat → scalar) (cells : List cell)
    (modules : List Nat) : List measurement :=
  modules.flatMap (fun module =>
    clusterize_module variance module (cells.filter (fun c => decide (c.module_link = module))))

/-- The clusters with the order of the clusters, and of the cells within a
cluster, forgotten. -/
def cluster_classes (clusters : List (List cell)) : Multiset (Multiset cell) :=
  Multiset.ofList (clusters.map Multiset.ofList)

/-- The test `touches` on a collection of cells without order. -/
def touches_class (c : cell) (s : Multiset cell) : Prop := ∃ x ∈ s, is_adjacent c x = true

instance (c : cell) : DecidablePred (touches_class c) :=
  fun _ => Multiset.decidableExistsMultiset

/-- The step `add_cell` on clusters without order. -/
def add_cell_class (P : Multiset (Multiset cell)) (c : cell) : Multiset (Multiset cell) :=
  (c ::ₘ (P.filter (touches_class c)).join) ::ₘ P.filter (fun s => ¬ touches_class c s)

/-- Two cells are linked within `cl` when a chain of adjacent cells of `cl`
leads from one to the other. -/
def linked_in (cl : List cell) : cell → cell → Prop :=
  Relation.ReflTransGen (fun x y => x ∈ cl ∧ y ∈ cl ∧ is_adjacent x y = true)

/-- The clusters `X` are connected components: adjacent cells share a cluster,
and the cells of a cluster are linked within it. -/
def components (X : List (List cell)) : Prop :=
  (∀ cl1 ∈ X, ∀ cl2 ∈ X, ∀ a ∈ cl1, ∀ b ∈ cl2, is_adjacent a b = true →
      ∃ cl ∈ X, a ∈ cl ∧ b ∈ cl) ∧
    (∀ cl ∈ X, ∀ a ∈ cl, ∀ b ∈ cl, linked_in cl a b)

/-- Five cells of one module, given out of order: a chain of four cells, each
a diagonal neighbour of the next, and an isolated cell. -/
def demoCells : List cell :=
  [ { channel0 := 1, channel1 := 1, activation := 2, module_link := 0 },
    { channel0 := 7, channel1 := 7, activation := 1, module_link := 0 },
    { channel0 := 3, channel1 := 1, activation := 1, module_link := 0 },
    { channel0 := 2, channel1 := 2, activation := 1, module_link := 0 },
    { channel0 := 4, channel1 := 2, activation := 4, module_link := 0 } ]

/-! ## Spacepoint builder (specification, section 4.2) -/

/-- Modelled from the spec: the sensor type of a module, a closed variant
(section 9); a module of a stereo strip pair names the module of the other
layer. -/
inductive module_type where
  | pixel
  | stereo_strip_pair (partner : Nat)
deriving DecidableEq, Repr

/-- Modelled from the spec: the geometry lookup, an external collaborator: the
sensor type and the local-to-global transform of a module identifier, and the
intersection of the strips of two measurements, which is `none` when the
strips do not intersect within the tolerance. -/
structure geometry_lookup where
  type : Nat → module_type
  transform : Nat → scalar → scalar → point3
  intersect : measurement → measurement → Option point3

/-- Modelled from the spec: the spacepoints of the measurement `im.2` with
reference `im.1`: one spacepoint for a pixel module; for a strip module one
spacepoint for every later measurement of the other layer whose strip
intersects (a pair of measurements is combined once). -/
def spacepoints_of (geo : geometry_lookup) (measurements : List measurement)
    (im : Nat × measurement) : List spacepoint :=
  match geo.type im.2.module_link with
  | .pixel =>
    [{ global := geo.transform im.2.module_link im.2.local0 im.2.local1,
       meas := im.1, meas2 := none }]
  | .stereo_strip_pair partner =>
    measurements.enum.filterMap (fun jn =>
      if im.1 < jn.1 ∧ jn.2.module_link = partner then
        (geo.intersect im.2 jn.2).map
          (fun p => { global := p, meas := im.1, meas2 := some jn.1 })
      else none)

/-- Modelled from the spec: spacepoint formation (`spacepoint_formation`,
constructed at line 140, is defined elsewhere in the library, its source is
missing): the measurements are processed in insertion order and nothing is
sorted; the geometry comes from the lookup, keyed by the module of the
measurement. -/
def spacepoint_formation (geo : geometry_lookup) (measurements : List measurement)
    (_modules : List Nat) : List spacepoint :=
  measurements.enum.flatMap (spacepoints_of geo measurements)

/-! ## Spacepoint grid (specification, section 4.3) -/

/-- Modelled from the spec: the configuration of the spacepoint grid
(`spacepoint_grid_config`, constructed at line 130, is declared in a header
that is missing). The grid has `nbins` bins; `bin` is the deterministic bin
index computed from the projected coordinates of a spacepoint (radius, phi with
wrap-around and offset, z), a function of the global position alone;
`neighbours` lists the bins of the neighbourhood of a bin, wrap-around
included. -/
structure spacepoint_grid_config where
  nbins : Nat
  bin : point3 → Fin nbins
  neighbours : Fin nbins → List (Fin nbins)

/-- Modelled from the spec: a grid holds, for every bin, an ordered sequence of
spacepoint references (indices into the spacepoint collection of the event). -/
abbrev spacepoint_grid (cfg : spacepoint_grid_config) := Fin cfg.nbins → List Nat

/-- Modelled from the spec: the grid of a fresh event, all bins empty. -/
def empty_grid (cfg : spacepoint_grid_config) : spacepoint_grid cfg := fun _ => []

/-- Modelled from the spec: insertion of the spacepoint with reference `i` into
the one bin computed from its coordinates. -/
def grid_insert (cfg : spacepoint_grid_config) (g : spacepoint_grid cfg) (i : Nat)
    (sp : spacepoint) : spacepoint_grid cfg :=
  fun b => if b = cfg.bin sp.global then g b ++ [i] else g b

/-- Modelled from the spec: the insertion loop over the spacepoints of the
event, the first of which has reference `i`. -/
def spacepoint_binning_from (cfg : spacepoint_grid_config) :
    Nat → List spacepoint → spacepoint_grid cfg → spacepoint_grid cfg
  | _, [], g => g
  | i, sp :: rest, g => spacepoint_binning_from cfg (i + 1) rest (grid_insert cfg g i sp)

/-- Modelled from the spec: the grid built for one event (section 4.3: every
spacepoint of the event is inserted; the grid is rebuilt fresh each event). -/
def spacepoint_binning (cfg : spacepoint_grid_config) (sps : List spacepoint) :
    spacepoint_grid cfg :=
  spacepoint_binning_from cfg 0 sps (empty_grid cfg)

/-- Modelled from the spec: the union of the contents of all bins, bin by bin. -/
def grid_contents (cfg : spacepoint_grid_config) (g : spacepoint_grid cfg) : List Nat :=
  (List.finRange cfg.nbins).flatMap g

/-- Modelled from the spec: the lookup of section 4.3, the ordered union of the
spacepoints of the bins in the neighbourhood of `b`, every bin taken once. -/
def grid_lookup (cfg : spacepoint_grid_config) (g : spacepoint_grid cfg) (b : Fin cfg.nbins) :
    List Nat :=
  (cfg.neighbours b).dedup.flatMap g

/-- A grid of four bins over the sign pattern of `x` and `y`, used to run the
binning on concrete events. -/
def demoGridConfig : spacepoint_grid_config :=
  { nbins := 4
    bin := fun p => if 0 ≤ p.x then (if 0 ≤ p.y then 0 else 3) else (if 0 ≤ p.y then 1 else 2)
    neighbours := fun b => [b - 1, b, b + 1] }

/-- Four spacepoints, the first and the third in the same quadrant. -/
def demoSpacepoints : List spacepoint :=
  [ { global := { x := 30, y := 1, z := 0 }, meas := 0, meas2 := none },
    { global := { x := -60, y := 2, z := 5 }, meas := 1, meas2 := none },
    { global := { x := 90, y := 3, z := 9 }, meas := 2, meas2 := none },
    { global := { x := 10, y := -4, z := 1 }, meas := 3, meas2 := none } ]

/-! ## Seed finder (specification, section 4.4) -/

/-- Modelled from the spec: the numeric kernels of the seed finder, whose formulas
the specification does not give (the implementation evaluates them in floating
point; its source is missing). `radius` is the projection of a position;
`in_window` tells whether a candidate lies in the configured radius/phi/z
windows around a middle point; `impact`, `pT` (with the field magnitude as
first argument) and `z0` are the quantities of a pair; `helix` is the
helix-consistency measure of a triplet; `score` is the score of a triplet
(bottom, middle, top), which may depend on the seeds kept so far;
`compatible` is the test of the seed invariant of section 3: for a middle point
(first argument) and two seeds of it, each given by the positions of its
(bottom, top) pair, it tells whether the second seed does not differ from the
first, their direction vectors being compatible within the configured
proximity, so that the second is not kept once the first is. -/
structure seed_kernels where
  radius : point3 → scalar
  in_window : point3 → point3 → Bool
  impact : point3 → point3 → scalar
  pT : scalar → point3 → point3 → scalar
  z0 : point3 → point3 → scalar
  helix : point3 → point3 → point3 → scalar
  score : List seed → point3 → point3 → point3 → scalar
  compatible : point3 → point3 × point3 → point3 × point3 → Bool

/-- Position of the spacepoint with reference `i` (the origin for a reference
outside the collection). -/
def position_of (sps : List spacepoint) (i : Nat) : point3 :=
  match sps[i]? with
  | some sp => sp.global
  | none => { x := 0, y := 0, z := 0 }

/-- Modelled from the spec: the hard cuts on a pair of spacepoints, evaluated
in order with short-circuit: impact parameter, transverse momentum, z0. -/
def doublet_passes (k : seed_kernels) (cfg : seedfinder_config) (p q : point3) : Bool :=
  decide (k.impact p q ≤ cfg.impactMax) &&
    (decide (cfg.minPt ≤ k.pT cfg.bFieldInZ p q) && decide (|k.z0 p q| ≤ cfg.z0Max))

/-- Modelled from the spec: the candidate bottom points of a middle point: the
points of the neighbourhood with smaller radius, inside the windows, whose
pair with the middle point passes the cuts. -/
def bottoms_of (k : seed_kernels) (cfg : seedfinder_config) (sps : List spacepoint)
    (lookup : List Nat) (m : Nat) : List Nat :=
  lookup.filter (fun b =>
    decide (k.radius (position_of sps b) < k.radius (position_of sps m)) &&
      (k.in_window (position_of sps m) (position_of sps b) &&
        doublet_passes k cfg (position_of sps b) (position_of sps m)))

/-- Modelled from the spec: the candidate top points of a middle point (larger
radius). -/
def tops_of (k : seed_kernels) (cfg : seedfinder_config) (sps : List spacepoint)
    (lookup : List Nat) (m : Nat) : List Nat :=
  lookup.filter (fun t =>
    decide (k.radius (position_of sps m) < k.radius (position_of sps t)) &&
      (k.in_window (position_of sps m) (position_of sps t) &&
        doublet_passes k cfg (position_of sps m) (position_of sps t)))

/-- Modelled from the spec: the triplets of a middle point that pass every hard
cut, as pairs (bottom, top). -/
def triplets_of (k : seed_kernels) (cfg : seedfinder_config) (sps : List spacepoint)
    (lookup : List Nat) (m : Nat) : List (Nat × Nat) :=
  (bottoms_of k cfg sps lookup m).flatMap (fun b =>
    ((tops_of k cfg sps lookup m).filter (fun t =>
      decide (k.helix (position_of sps b) (position_of sps m) (position_of sps t)
        ≤ cfg.helixMax))).map (fun t => (b, t)))

/-- The conditions of section 4.4 on a retained triplet of positions: the
bottom point lies below and the top point above the middle point in radius,
and every hard cut is passed. -/
def triplet_passes (k : seed_kernels) (cfg : seedfinder_config) (b m t : point3) : Prop :=
  k.radius b < k.radius m ∧ k.radius m < k.radius t ∧
    doublet_passes k cfg b m = true ∧ doublet_passes k cfg m t = true ∧
    k.helix b m t ≤ cfg.helixMax

/-- Modelled from the spec: the order of section 4.4 between two seeds of a
middle point: strictly higher score first, then lower radius of the bottom
spacepoint, then lower insertion index (of the bottom, then of the top
spacepoint). -/
def seed_before (k : seed_kernels) (sps : List spacepoint) (s1 s2 : seed) : Prop :=
  s2.weight < s1.weight ∨ (s1.weight = s2.weight ∧
    (k.radius (position_of sps s1.spB_link) < k.radius (position_of sps s2.spB_link) ∨
      (k.radius (position_of sps s1.spB_link) = k.radius (position_of sps s2.spB_link) ∧
        (s1.spB_link < s2.spB_link ∨
          (s1.spB_link = s2.spB_link ∧ s1.spT_link ≤ s2.spT_link)))))

instance (k : seed_kernels) (sps : List spacepoint) : DecidableRel (seed_before k sps) :=
  fun _ _ => by unfold seed_before; infer_instance

/-- Modelled from the spec: the seed invariant of section 3, applied to the
candidates of one middle point taken in order: a candidate is kept only if it
is compatible with none of the seeds already kept. `kept` holds the seeds
kept so far, oldest first. -/
def keep_incompatible {α : Type} (compatible : α → α → Bool) : List α → List α → List α
  | kept, [] => kept
  | kept, x :: rest =>
    if kept.any (fun q => compatible q x) then keep_incompatible compatible kept rest
    else keep_incompatible compatible (kept ++ [x]) rest

/-- Modelled from the spec: whether two seeds of the middle point `m` are
compatible, from the positions of their bottom and top spacepoints. -/
def seeds_compatible (k : seed_kernels) (sps : List spacepoint) (m : Nat) (s1 s2 : seed) :
    Bool :=
  k.compatible (position_of sps m)
    (position_of sps s1.spB_link, position_of sps s1.spT_link)
    (position_of sps s2.spB_link, position_of sps s2.spT_link)

/-- Modelled from the spec: the seeds retained for the middle point `m`: its
triplets are scored and ordered; going from the best one down, a triplet is
kept only if it is not compatible with a seed already kept for `m` (section
3); at most `maxSeedsPerSpM` of them are kept. -/
def seeds_of_middle (k : seed_kernels) (cfg : seedfinder_config) (fcfg : seedfilter_config)
    (sps : List spacepoint) (lookup : List Nat) (kept : List seed) (m : Nat) : List seed :=
  let scored := (triplets_of k cfg sps lookup m).map (fun bt =>
    { spB_link := bt.1, spM_link := m, spT_link := bt.2,
      weight := k.score kept (position_of sps bt.1) (position_of sps m) (position_of sps bt.2) })
  ((keep_incompatible (seeds_compatible k sps m) []
    (scored.insertionSort (seed_before k sps))).take fcfg.maxSeedsPerSpM)

/-- Modelled from the spec: the middle points of an event in traversal order,
grid bin by grid bin, each with its bin. -/
def middle_points (gcfg : spacepoint_grid_config) (g : spacepoint_grid gcfg) :
    List (Nat × Fin gcfg.nbins) :=
  (List.finRange gcfg.nbins).flatMap (fun b => (g b).map (fun m => (m, b)))

/-- Modelled from the spec: the search over the middle points in traversal
order; the seeds of a middle point are appended to those kept so far. -/
def seed_finding (k : seed_kernels) (cfg : seedfinder_config) (gcfg : spacepoint_grid_config)
    (fcfg : seedfilter_config) (sps : List spacepoint) (g : spacepoint_grid gcfg) :
    List (Nat × Fin gcfg.nbins) → List seed → List seed
  | [], kept => kept
  | mb :: rest, kept =>
    seed_finding k cfg gcfg fcfg sps g rest
      (kept ++ seeds_of_middle k cfg fcfg sps (grid_lookup gcfg g mb.2) kept mb.1)

/-- Modelled from the spec: the seeding algorithm constructed at line 141 from
the finder, grid and filter configuration: the grid is built fresh, the middle
points are searched, and the output is truncated to `maxSeeds` seeds (the
deterministic truncation of section 7). -/
def seeding_algorithm (k : seed_kernels) (finder_config : seedfinder_config)
    (grid_config : spacepoint_grid_config) (filter_config : seedfilter_config)
    (sps : List spacepoint) : List seed :=
  let g := spacepoint_binning grid_config sps
  (seed_finding k finder_config grid_config filter_config sps g
    (middle_points grid_config g) []).take filter_config.maxSeeds

/-- Number of seeds of a collection whose middle spacepoint is `m`. -/
def seeds_with_middle (seeds : List seed) (m : Nat) : Nat :=
  (seeds.filter (fun s => decide (s.spM_link = m))).length

/-- Kernels used to run the seed finder on concrete events: the radius is the
`x` coordinate, the impact parameter of a pair is the difference of the `y`
coordinates, the other quantities are constant, and no two seeds are
compatible. -/
def demoKernels : seed_kernels :=
  { radius := fun p => p.x
    in_window := fun _ _ => true
    impact := fun p q => |q.y - p.y|
    pT := fun _ _ _ => 5
    z0 := fun _ _ => 0
    helix := fun _ _ _ => 0
    score := fun _ b _ t => b.y + t.y
    compatible := fun _ _ _ => false }

/-- One bin holding every spacepoint. -/
def oneBinConfig : spacepoint_grid_config :=
  { nbins := 1, bin := fun _ => 0, neighbours := fun b => [b] }

/-- A finder configuration for `demoKernels`. -/
def looseConfig : seedfinder_config :=
  { bFieldInZ := 2, impactMax := 10, minPt := 1, z0Max := 100, helixMax := 1 }

/-- Capacities used with the concrete events. -/
def demoFilterConfig : seedfilter_config := { maxSeedsPerSpM := 2, maxSeeds := 3 }

/-- Modelled from the spec: track parameter estimation (`track_params_estimation`,
constructed at line 143, is defined elsewhere in the library, its source is
missing): one estimate per seed, in seed order. `seed_to_bound` is the
closed-form helix solution for one seed, given the spacepoints and the field
vector. -/
def track_params_estimation
    (seed_to_bound : List spacepoint → seed → point3 → bound_track_parameters)
    (sps : List spacepoint) (seeds : List seed) (bfield : point3) :
    List bound_track_parameters :=
  seeds.map (fun s => seed_to_bound sps s bfield)

/-! ## The driver with the algorithms of the specification -/

/-- What the algorithms of the specification leave open: the event files, the
variance of a cluster extent, the geometry lookup, the numeric kernels, the
configuration, the helix solution, and the external track finder with its
selector. -/
structure Collaborators where
  read_cells : Nat → cell_reader_output
  variance : Nat → scalar
  geometry : geometry_lookup
  kernels : seed_kernels
  finder_config : seedfinder_config
  grid_config : spacepoint_grid_config
  filter_config : seedfilter_config
  seed_to_bound : List spacepoint → seed → point3 → bound_track_parameters
  findTracks : bound_track_parameters → FindResult
  m_trackSelector : Option (Track → Bool)

/-- Modelled from the spec: the algorithm objects of lines 139-154.  The host
algorithms are those of sections 4.1 to 4.5.  The device algorithms are taken
to compute the same functions (section 5 requires equivalent results);
`ca_cuda` returns spacepoints, so it is clusterization followed by spacepoint
formation. -/
def referenceAlgorithms (env : Collaborators) : Algorithms :=
  { read_cells := env.read_cells
    ca := clusterization_algorithm env.variance
    sf := spacepoint_formation env.geometry
    sa := seeding_algorithm env.kernels env.finder_config env.grid_config env.filter_config
    tp := track_params_estimation env.seed_to_bound
    ca_cuda := fun cells modules =>
      spacepoint_formation env.geometry (clusterization_algorithm env.variance cells modules)
        modules
    sa_cuda := seeding_algorithm env.kernels env.finder_config env.grid_config env.filter_config
    tp_cuda := track_params_estimation env.seed_to_bound
    findTracks := env.findTracks
    m_trackSelector := env.m_trackSelector
    finder_config := env.finder_config }

/-- Collaborators used to run the driver on concrete events: event 0 has no
cell, every other event has the cells `demoCells`; all modules are pixel
modules placed in the plane `z = 0`. -/
def demoCollaborators : Collaborators :=
  { read_cells := fun event =>
      if event = 0 then { cells := [], modules := [0] } else { cells := demoCells, modules := [0] }
    variance := fun e => e / 12
    geometry :=
      { type := fun _ => .pixel
        transform := fun _ l0 l1 => { x := l0, y := l1, z := 0 }
        intersect := fun _ _ => none }
    kernels := demoKernels
    finder_config := looseConfig
    grid_config := oneBinConfig
    filter_config := demoFilterConfig
    seed_to_bound := fun _ s _ => { vector := [s.weight], covariance := [] }
    findTracks := fun p => .ok [{ content := p.vector.length, trackGroup := 0 }]
    m_trackSelector := none }

/-! ## `GeometryObject` -/

/-- Identifier value held by a geometry object (`GeometryIdentifier.hpp` is
missing; the identifier is a plain value type). -/
abbrev GeometryIdentifier := Nat

/-- Geometry context handed to the binning methods. -/
abbrev GeometryContext := Nat

/-- Selector of the binning coordinate. -/
abbrev BinningValue := Nat

/-- The class `GeometryObject`: the protected member `m_geometryId` and the
pure virtual `binningPosition` supplied by the concrete class. -/
structure GeometryObject where
  m_geometryId : GeometryIdentifier
  binningPosition : GeometryContext → BinningValue → point3

/-- The getter `GeometryObject::geometryId` (lines 80-82). -/
def GeometryObject.geometryId (o : GeometryObject) : GeometryIdentifier :=
  o.m_geometryId

/-- The setter `GeometryObject::assignGeometryId` (lines 84-87). -/
def GeometryObject.assignGeometryId (o : GeometryObject) (geometryId : GeometryIdentifier) :
    GeometryObject :=
  { o with m_geometryId := geometryId }

/-- The constructor from a value (lines 34-38); `binningPosition` comes with
the concrete class that is constructed. -/
def GeometryObject.fromGeometryId (geometryId : GeometryIdentifier)
    (binningPosition : GeometryContext → BinningValue → point3) : GeometryObject :=
  { m_geometryId := geometryId, binningPosition := binningPosition }

/-- The geometry objects of a program, by address. -/
abbrev ObjectStore := Nat → GeometryObject

/-- The assignment operator (lines 40-48), called on the object at the address
`self` with a reference to the object at the address `other` (the parameter
named `geometryId` in the source): unless the two addresses are the same, the
identifier of the other object is copied; the operator returns `*this`, so the
store after the call is the result. -/
def GeometryObject.assign (store : ObjectStore) (self other : Nat) : ObjectStore :=
  if other ≠ self then
    Function.update store self { store self with m_geometryId := (store other).m_geometryId }
  else store

/-- The method `GeometryObject::binningPositionValue` as the class defines it
(lines 89-92; a concrete class may override it): the helper
`VectorHelpers::cast`, whose header `utils/VectorHelpers.hpp` is missing and
which is taken as the parameter `cast`, applied to the binning position of
the object, found by virtual dispatch, and to `bValue`. -/
def GeometryObject.binningPositionValue (cast : point3 → BinningValue → scalar)
    (o : GeometryObject) (gctx : GeometryContext) (bValue : BinningValue) : scalar :=
  cast (o.binningPosition gctx bValue) bValue

/-- A geometry object placed at the point (1, 2, 3) in every context, used to
run the binning methods. -/
def demoObject : GeometryObject :=
  { m_geometryId := 5, binningPosition := fun _ _ => { x := 1, y := 2, z := 3 } }

/-- A stand-in for the cast helper: binning value 0 picks `x`, 1 picks `y`,
any other one picks `z`. -/
def demoCast (p : point3) (bValue : BinningValue) : scalar :=
  if bValue = 0 then p.x else if bValue = 1 then p.y else p.z

/-! ## Alignment parameter indices (`definitions/Alignment.hpp`) -/

/-- Enumerator `eAlignmentCenter0 = 0u` of `enum AlignmentIndices : unsigned int`. -/
def eAlignmentCenter0 : Nat := 0

/-- Enumerator `eAlignmentCenter1 = eAlignmentCenter0 + 1u`. -/
def eAlignmentCenter1 : Nat := (eAlignmentCenter0 + 1) % UINT_MOD

/-- Enumerator `eAlignmentCenter2 = eAlignmentCenter0 + 2u`. -/
def eAlignmentCenter2 : Nat := (eAlignmentCenter0 + 2) % UINT_MOD

/-- Enumerator `eAlignmentRotation0 = 3u`. -/
def eAlignmentRotation0 : Nat := 3

/-- Enumerator `eAlignmentRotation1 = eAlignmentRotation0 + 1u`. -/
def eAlignmentRotation1 : Nat := (eAlignmentRotation0 + 1) % UINT_MOD

/-- Enumerator `eAlignmentRotation2 = eAlignmentRotation0 + 2u`. -/
def eAlignmentRotation2 : Nat := (eAlignmentRotation0 + 2) % UINT_MOD

/-- Enumerator `eAlignmentSize`, the last one: it has no initializer, so its
value is that of the enumerator before it plus one. -/
def eAlignmentSize : Nat := (eAlignmentRotation2 + 1) % UINT_MOD

/-- The six components of the alignment parameters, in the order of the
enumeration (the centre, then the rotation). -/
def alignmentComponents : List Nat :=
  [eAlignmentCenter0, eAlignmentCenter1, eAlignmentCenter2,
    eAlignmentRotation0, eAlignmentRotation1, eAlignmentRotation2]

/-- The type `AlignmentVector = TracccVector<eAlignmentSize>` (line 35): a
column of `eAlignmentSize` scalars, indexed by `Fin eAlignmentSize`. -/
abbrev AlignmentVector := Fin eAlignmentSize → scalar

/-! ## Error enumerations -/

/-- The enumeration `CombinatorialKalmanFilterError`
(`TrackFinding/CombinatorialKalmanFilterError.hpp`, lines 16-23). -/
inductive CombinatorialKalmanFilterError where
  | UpdateFailed
  | SmoothFailed
  | OutputConversionFailed
  | MeasurementSelectionFailed
  | PropagationReachesMaxSteps
deriving DecidableEq, Repr

/-- The integer value of an enumerator: `UpdateFailed = 1`, and every further
enumerator, having no initializer, is one more than the one before it. -/
def CombinatorialKalmanFilterError.value : CombinatorialKalmanFilterError → Int
  | .UpdateFailed => 1
  | .SmoothFailed => 1 + 1
  | .OutputConversionFailed => 1 + 1 + 1
  | .MeasurementSelectionFailed => 1 + 1 + 1 + 1
  | .PropagationReachesMaxSteps => 1 + 1 + 1 + 1 + 1

/-- The enumeration `SurfaceError` (`Surfaces/SurfaceError.hpp`, lines 16-19). -/
inductive SurfaceError where
  | GlobalPositionNotOnSurface
deriving DecidableEq, Repr

/-- The integer value of an enumerator: `GlobalPositionNotOnSurface = 1`. -/
def SurfaceError.value : SurfaceError → Int
  | .GlobalPositionNotOnSurface => 1

/-! ## Free to curvilinear parameters (`edm/detail/TransformationFreeToBound.hpp`) -/

/-- Modelled from the spec: the bound parameters vector `BoundVector`, whose
header `definitions/TrackParametrization.hpp` is missing: the two local
coordinates, the two direction angles, the charge over momentum and the
time, by name of their index. -/
structure BoundVector where
  eBoundLoc0 : scalar
  eBoundLoc1 : scalar
  eBoundPhi : scalar
  eBoundTheta : scalar
  eBoundQOverP : scalar
  eBoundTime : scalar
deriving DecidableEq, Repr

/-- Modelled from the spec: `transformFreeToCurvilinearParameters(time, phi,
theta, qOverP)`, declared at lines 65-79; its body is missing.  The model
follows the documented contract of the declaration: the result is the
equivalent bound vector on the curvilinear surface, defined at the origin of
the curvilinear frame, so that the local coordinates are zero by
construction; the angles, the charge over momentum and the time are those
given. -/
def transformFreeToCurvilinearParametersAngles (time phi theta qOverP : scalar) :
    BoundVector :=
  { eBoundLoc0 := 0
    eBoundLoc1 := 0
    eBoundPhi := phi
    eBoundTheta := theta
    eBoundQOverP := qOverP
    eBoundTime := time }

/-- Modelled from the spec: `transformFreeToCurvilinearParameters(time,
direction, qOverP)`, declared at lines 51-63; its body is missing.  The model
follows the documented contract of the declaration: the curvilinear frame is
derived from the direction vector and the local coordinates are zero by
construction.  `phi` and `theta` are the helpers that give the two angles of
a direction vector (`utils/VectorHelpers.hpp`, missing). -/
def transformFreeToCurvilinearParameters (phi theta : point3 → scalar) (time : scalar)
    (direction : point3) (qOverP : scalar) : BoundVector :=
  transformFreeToCurvilinearParametersAngles time (phi direction) (theta direction) qOverP

/-! ## Properties of the track finding loop and of the event loop -/

theorem uint_succ_pred (n : Nat) :
    ((n + 1) % UINT_MOD + UINT_MOD - 1) % UINT_MOD = n % UINT_MOD := by
  unfold UINT_MOD
  omega

theorem trackFindingBody_total (findTracks : bound_track_parameters → FindResult)
    (sel : Option (Track → Bool)) (st : TrackFindingState) (iseed : Nat)
    (p : bound_track_parameters) :
    (trackFindingBody findTracks sel st iseed p).m_nTotalSeeds = st.m_nTotalSeeds + 1 := by
  unfold trackFindingBody
  cases findTracks p <;> rfl

/-- C8: with an empty collection of track parameters the loop over the seeds
returns the state it was given (although every execution of the body raises
`m_nTotalSeeds`), so the event adds no track and leaves `tracks`, `nSeed`,
`m_nTotalSeeds` and `m_nFailedSeeds` as they were; `seq_run` returns 0. -/
theorem zero_seeds_is_valid (alg : Algorithms) (run_cpu : Bool) (st : RunState)
    (event events skip iseed : Nat)
    (h : (eventCollections alg run_cpu event).params = []) :
    trackFindingLoop alg.findTracks alg.m_trackSelector iseed
        (eventCollections alg run_cpu event).params st.finding = st.finding ∧
      (∀ (s : TrackFindingState) (i : Nat) (p : bound_track_parameters),
        trackFindingBody alg.findTracks alg.m_trackSelector s i p ≠ s) ∧
      (eventStep alg run_cpu st event).finding = st.finding ∧
      tracksAddedFor alg run_cpu st event = [] ∧
      (seq_run alg events skip run_cpu).1 = 0 := by
  have hstep : (eventStep alg run_cpu st event).finding = st.finding := by
    simp only [eventStep, eventTrackFinding, h]
    cases run_cpu <;> simp [trackFindingLoop]
  refine ⟨by rw [h]; rfl, ?_, hstep, ?_, rfl⟩
  · intro s i p hEq
    have := trackFindingBody_total alg.findTracks alg.m_trackSelector s i p
    rw [hEq] at this
    omega
  · simp [tracksAddedFor, hstep]

theorem zero_seeds_is_valid_witness :
    (eventCollections seedlessAlgorithms true 3).params = [] ∧
      (eventStep seedlessAlgorithms true RunState.init 3).finding = RunState.init.finding :=
  ⟨rfl, (zero_seeds_is_valid seedlessAlgorithms true RunState.init 3 5 0 0 rfl).2.2.1⟩

theorem trackFindingBody_nSeed (findTracks : bound_track_parameters → FindResult)
    (sel : Option (Track → Bool)) (st : TrackFindingState) (iseed : Nat)
    (p : bound_track_parameters) :
    (trackFindingBody findTracks sel st iseed p).nSeed = (st.nSeed + 1) % UINT_MOD := by
  unfold trackFindingBody
  cases findTracks p <;> rfl

theorem trackFindingBody_tracks (findTracks : bound_track_parameters → FindResult)
    (sel : Option (Track → Bool)) (st : TrackFindingState) (iseed : Nat)
    (p : bound_track_parameters) :
    (trackFindingBody findTracks sel st iseed p).tracks =
      st.tracks ++ tracksOfSeed findTracks sel (st.nSeed % UINT_MOD) p := by
  unfold trackFindingBody tracksOfSeed
  cases findTracks p with
  | error e => simp
  | ok ts => simp only [uint_succ_pred]

theorem isSelected_renumber (sel : Option (Track → Bool))
    (hsel : ∀ s, sel = some s → ∀ (t : Track) (g : Nat), s { t with trackGroup := g } = s t)
    (t : Track) (g : Nat) :
    isSelected sel { t with trackGroup := g } = isSelected sel t := by
  cases sel with
  | none => rfl
  | some s => exact hsel s rfl t g

/-- The tracks appended by the loop started with `nSeed = n` are those appended
by the loop started with `nSeed = 0`, their seed numbers moved on by `n`. -/
theorem trackFindingLoop_tracks (findTracks : bound_track_parameters → FindResult)
    (sel : Option (Track → Bool))
    (hsel : ∀ s, sel = some s → ∀ (t : Track) (g : Nat), s { t with trackGroup := g } = s t)
    (params : List bound_track_parameters) :
    ∀ (i j : Nat) (st st0 : TrackFindingState) (n : Nat),
      st.nSeed % UINT_MOD = (n + st0.nSeed) % UINT_MOD →
      ∃ added : List Track,
        (trackFindingLoop findTracks sel j params st0).tracks = st0.tracks ++ added ∧
        (trackFindingLoop findTracks sel i params st).tracks =
          st.tracks ++ added.map (renumber n) := by
  induction params with
  | nil =>
    intro i j st st0 n _
    exact ⟨[], by simp [trackFindingLoop], by simp [trackFindingLoop]⟩
  | cons p rest ih =>
    intro i j st st0 n hn
    have hn1 : (trackFindingBody findTracks sel st i p).nSeed % UINT_MOD =
        (n + (trackFindingBody findTracks sel st0 j p).nSeed) % UINT_MOD := by
      rw [trackFindingBody_nSeed, trackFindingBody_nSeed]
      unfold UINT_MOD at hn ⊢
      omega
    obtain ⟨added, h0, h1⟩ := ih (i + 1) (j + 1) (trackFindingBody findTracks sel st i p)
      (trackFindingBody findTracks sel st0 j p) n hn1
    refine ⟨tracksOfSeed findTracks sel (st0.nSeed % UINT_MOD) p ++ added, ?_, ?_⟩
    · simp only [trackFindingLoop]
      rw [h0, trackFindingBody_tracks, List.append_assoc]
    · simp only [trackFindingLoop]
      rw [h1, trackFindingBody_tracks, List.append_assoc, List.map_append]
      congr 2
      unfold tracksOfSeed
      cases findTracks p with
      | error e => simp
      | ok ts =>
        simp only [List.filter_map, List.map_map]
        have hfilter : ∀ g : Nat,
            (isSelected sel ∘ fun t : Track => { t with trackGroup := g }) = isSelected sel := by
          intro g
          funext t
          exact isSelected_renumber sel hsel t g
        rw [hfilter, hfilter]
        apply List.map_congr_left
        intro t _
        simp only [Function.comp, renumber]
        rw [Nat.add_mod_mod, hn]

/-- C9 as stated fails: in a run of `demoAlgorithms` the track added for event
1 carries seed number 1 when event 0 was processed before it, and seed number
0 when event 1 is the first event. -/
theorem event_result_depends_on_earlier_events :
    tracksAddedFor demoAlgorithms true (eventStep demoAlgorithms true RunState.init 0) 1 =
        [{ content := 7, trackGroup := 1 }] ∧
      tracksAddedFor demoAlgorithms true RunState.init 1 = [{ content := 7, trackGroup := 0 }] ∧
      tracksAddedFor demoAlgorithms true (eventStep demoAlgorithms true RunState.init 0) 1 ≠
        tracksAddedFor demoAlgorithms true RunState.init 1 := by
  refine ⟨by decide, by decide, by decide⟩

/-- The tracks added for an event from any state are those added when the
event is processed first, every seed number moved on by the value of `nSeed`
in that state. -/
theorem tracksAddedFor_renumber (alg : Algorithms) (run_cpu : Bool) (st : RunState)
    (event : Nat)
    (hsel : ∀ s, alg.m_trackSelector = some s →
      ∀ (t : Track) (g : Nat), s { t with trackGroup := g } = s t) :
    tracksAddedFor alg run_cpu st event =
      (tracksAddedFor alg run_cpu RunState.init event).map (renumber st.finding.nSeed) := by
  unfold tracksAddedFor eventStep eventTrackFinding
  cases run_cpu with
  | false => simp [RunState.init, TrackFindingState.init]
  | true =>
    obtain ⟨added, h0, h1⟩ := trackFindingLoop_tracks alg.findTracks alg.m_trackSelector hsel
      (eventCollections alg true event).params 0 0 st.finding RunState.init.finding
      st.finding.nSeed (by simp [RunState.init, TrackFindingState.init])
    simp only [if_true]
    rw [h0, h1]
    simp [RunState.init, TrackFindingState.init]

theorem trackFindingLoop_nSeed (findTracks : bound_track_parameters → FindResult)
    (sel : Option (Track → Bool)) (params : List bound_track_parameters) :
    ∀ (i : Nat) (st : TrackFindingState),
      (trackFindingLoop findTracks sel i params st).nSeed % UINT_MOD =
        (st.nSeed + params.length) % UINT_MOD := by
  induction params with
  | nil => intro i st; rfl
  | cons p rest ih =>
    intro i st
    simp only [trackFindingLoop, List.length_cons]
    rw [ih, trackFindingBody_nSeed]
    unfold UINT_MOD
    omega

/-- After the events `es`, `nSeed` is the number of track parameter estimates
of all of them (`unsigned int` arithmetic). -/
theorem eventLoop_nSeed (alg : Algorithms) (run_cpu : Bool) (es : List Nat) :
    ∀ st : RunState,
      (eventLoop alg run_cpu es st).finding.nSeed % UINT_MOD =
        (st.finding.nSeed +
          (es.map (fun e => (eventCollections alg run_cpu e).params.length)).sum) % UINT_MOD := by
  induction es with
  | nil => intro st; simp [eventLoop]
  | cons e rest ih =>
    intro st
    have hstep : (eventStep alg run_cpu st e).finding.nSeed % UINT_MOD =
        (st.finding.nSeed + (eventCollections alg run_cpu e).params.length) % UINT_MOD := by
      simp only [eventStep, eventTrackFinding]
      cases run_cpu with
      | false => simp [eventCollections]
      | true => simp only [if_true]; exact trackFindingLoop_nSeed _ _ _ _ _
    have hunfold : eventLoop alg run_cpu (e :: rest) st =
        eventLoop alg run_cpu rest (eventStep alg run_cpu st e) := rfl
    rw [hunfold, ih, List.map_cons, List.sum_cons]
    unfold UINT_MOD at hstep ⊢
    omega

theorem renumber_congr (a b : Nat) (h : a % UINT_MOD = b % UINT_MOD) :
    renumber a = renumber b := by
  funext t
  simp only [renumber]
  congr 1
  unfold UINT_MOD at h ⊢
  omega

/-- C9, amended: the collections of an event do not depend on the state left by
earlier events (they are a function of the event number), and the tracks
added for an event are those added when the event is processed first, except
that every seed number is moved on by the number of track parameter estimates
of all events processed before (`nSeed` and the output container are declared
before the event loop and never reset).  The track selector is assumed not to
read the `trackGroup` column. -/
theorem event_tracks_up_to_seed_offset (alg : Algorithms) (run_cpu : Bool) (es : List Nat)
    (event : Nat)
    (hsel : ∀ s, alg.m_trackSelector = some s →
      ∀ (t : Track) (g : Nat), s { t with trackGroup := g } = s t) :
    tracksAddedFor alg run_cpu (eventLoop alg run_cpu es RunState.init) event =
      (tracksAddedFor alg run_cpu RunState.init event).map
        (renumber (es.map (fun e => (eventCollections alg run_cpu e).params.length)).sum) := by
  rw [tracksAddedFor_renumber alg run_cpu _ event hsel]
  congr 1
  apply renumber_congr
  rw [eventLoop_nSeed]
  simp [RunState.init, TrackFindingState.init]

theorem event_tracks_up_to_seed_offset_witness :
    tracksAddedFor demoAlgorithms true (eventLoop demoAlgorithms true [0, 5] RunState.init) 1 =
      (tracksAddedFor demoAlgorithms true RunState.init 1).map (renumber 2) :=
  event_tracks_up_to_seed_offset demoAlgorithms true [0, 5] 1
    (fun s h => by simp [demoAlgorithms] at h)

/-! ## Properties of the clusterer -/

theorem is_adjacent_symm (a b : cell) : is_adjacent a b = is_adjacent b a := by
  unfold is_adjacent
  rw [Bool.and_comm (decide (a.channel0 ≤ b.channel0 + 1)),
    Bool.and_comm (decide (a.channel1 ≤ b.channel1 + 1))]

theorem flatten_add_cell_perm (X : List (List cell)) (c : cell) :
    (add_cell X c).flatten.Perm (c :: X.flatten) := by
  unfold add_cell
  rw [List.flatten_cons, List.cons_append, ← List.flatten_append]
  exact List.Perm.cons _ (List.Perm.flatten (List.filter_append_perm _ _))

/-- The clusters hold every cell of the input once: nothing is lost and
nothing is duplicated. -/
theorem clusters_of_partition (cells : List cell) : (clusters_of cells).flatten.Perm cells := by
  have h : ∀ (l : List cell) (X : List (List cell)),
      (l.foldl add_cell X).flatten.Perm (X.flatten ++ l) := by
    intro l
    induction l with
    | nil => intro X; simp
    | cons c rest ih =>
      intro X
      rw [List.foldl_cons]
      refine (ih _).trans ?_
      refine ((flatten_add_cell_perm X c).append_right rest).trans ?_
      simp only [List.cons_append]
      exact List.perm_middle.symm
  simpa [clusters_of] using h cells []

theorem linked_in_mono {cl1 cl2 : List cell} (h : ∀ x ∈ cl1, x ∈ cl2) (a b : cell)
    (hab : linked_in cl1 a b) : linked_in cl2 a b := by
  unfold linked_in at hab ⊢
  exact Relation.ReflTransGen.mono (fun x y hxy => ⟨h x hxy.1, h y hxy.2.1, hxy.2.2⟩) hab

theorem linked_in_symm (cl : List cell) (a b : cell) (hab : linked_in cl a b) :
    linked_in cl b a := by
  unfold linked_in at hab ⊢
  induction hab with
  | refl => exact Relation.ReflTransGen.refl
  | tail _ hstep ih =>
    exact Relation.ReflTransGen.head
      ⟨hstep.2.1, hstep.1, by rw [is_adjacent_symm]; exact hstep.2.2⟩ ih

theorem mem_add_cell (X : List (List cell)) (c : cell) (cl : List cell) :
    cl ∈ add_cell X c ↔
      cl = c :: (X.filter (touches c)).flatten ∨ (cl ∈ X ∧ touches c cl = false) := by
  unfold add_cell
  simp [List.mem_filter]

theorem mem_new_cluster (X : List (List cell)) (c a : cell) :
    a ∈ c :: (X.filter (touches c)).flatten ↔
      a = c ∨ ∃ cl ∈ X, touches c cl = true ∧ a ∈ cl := by
  simp only [List.mem_cons, List.mem_flatten, List.mem_filter]
  constructor
  · rintro (h | ⟨cl, ⟨h1, h2⟩, h3⟩)
    · exact Or.inl h
    · exact Or.inr ⟨cl, h1, h2, h3⟩
  · rintro (h | ⟨cl, h1, h2, h3⟩)
    · exact Or.inl h
    · exact Or.inr ⟨cl, ⟨h1, h2⟩, h3⟩

/-- Adding a cell keeps the clusters connected components. -/
theorem components_add_cell (X : List (List cell)) (c : cell) (hX : components X) :
    components (add_cell X c) := by
  obtain ⟨hadj, hlink⟩ := hX
  have hnew_mem : (c :: (X.filter (touches c)).flatten) ∈ add_cell X c :=
    (mem_add_cell X c _).2 (Or.inl rfl)
  have hplace : ∀ cl ∈ add_cell X c, ∀ a ∈ cl,
      a = c ∨ ∃ cl0 ∈ X, a ∈ cl0 ∧
        ((touches c cl0 = true ∧ cl = c :: (X.filter (touches c)).flatten) ∨
          (touches c cl0 = false ∧ cl = cl0)) := by
    intro cl hcl a ha
    rcases (mem_add_cell X c cl).1 hcl with rfl | ⟨hclX, hno⟩
    · rcases (mem_new_cluster X c a).1 ha with h | ⟨cl0, h0, ht, ha0⟩
      · exact Or.inl h
      · exact Or.inr ⟨cl0, h0, ha0, Or.inl ⟨ht, rfl⟩⟩
    · exact Or.inr ⟨cl, hclX, ha, Or.inr ⟨hno, rfl⟩⟩
  constructor
  · intro cl1 h1 cl2 h2 a ha b hb hab
    have hc_side : ∀ cl ∈ add_cell X c, ∀ x ∈ cl, is_adjacent c x = true →
        x ∈ c :: (X.filter (touches c)).flatten := by
      intro cl hcl x hx hcx
      rcases hplace cl hcl x hx with rfl | ⟨cl0, h0, hx0, _⟩
      · exact List.mem_cons_self _ _
      · refine (mem_new_cluster X c x).2 (Or.inr ⟨cl0, h0, ?_, hx0⟩)
        exact List.any_eq_true.2 ⟨x, hx0, hcx⟩
    rcases hplace cl1 h1 a ha with rfl | ⟨cla, hcla, haa, hcase_a⟩
    · exact ⟨_, hnew_mem, List.mem_cons_self _ _, hc_side cl2 h2 b hb hab⟩
    · rcases hplace cl2 h2 b hb with rfl | ⟨clb, hclb, hbb, hcase_b⟩
      · refine ⟨_, hnew_mem, hc_side cl1 h1 a ha ?_, List.mem_cons_self _ _⟩
        rw [is_adjacent_symm]; exact hab
      · obtain ⟨cl, hclX, hacl, hbcl⟩ := hadj cla hcla clb hclb a haa b hbb hab
        by_cases ht : touches c cl = true
        · exact ⟨_, hnew_mem, (mem_new_cluster X c a).2 (Or.inr ⟨cl, hclX, ht, hacl⟩),
            (mem_new_cluster X c b).2 (Or.inr ⟨cl, hclX, ht, hbcl⟩)⟩
        · exact ⟨cl, (mem_add_cell X c cl).2 (Or.inr ⟨hclX, by simpa using ht⟩), hacl,
            hbcl⟩
  · intro cl hcl a ha b hb
    rcases (mem_add_cell X c cl).1 hcl with rfl | ⟨hclX, _⟩
    · have hto_c : ∀ x ∈ c :: (X.filter (touches c)).flatten,
          linked_in (c :: (X.filter (touches c)).flatten) x c := by
        intro x hx
        rcases (mem_new_cluster X c x).1 hx with rfl | ⟨cl0, h0, ht, hx0⟩
        · exact Relation.ReflTransGen.refl
        · obtain ⟨y, hy0, hcy⟩ := List.any_eq_true.1 ht
          have hsub : ∀ z ∈ cl0, z ∈ c :: (X.filter (touches c)).flatten :=
            fun z hz => (mem_new_cluster X c z).2 (Or.inr ⟨cl0, h0, ht, hz⟩)
          have hxy := linked_in_mono hsub x y (hlink cl0 h0 x hx0 y hy0)
          exact Relation.ReflTransGen.tail hxy
            ⟨hsub y hy0, List.mem_cons_self _ _, by rw [is_adjacent_symm]; exact hcy⟩
      exact Relation.ReflTransGen.trans (hto_c a ha) (linked_in_symm _ _ _ (hto_c b hb))
    · exact hlink cl hclX a ha b hb

/-- The clusters are the connected components of the cells under adjacency:
adjacent cells share a cluster and the cells of a cluster are linked within
it. -/
theorem clusters_of_components (cells : List cell) : components (clusters_of cells) := by
  have h : ∀ (l : List cell) (X : List (List cell)), components X →
      components (l.foldl add_cell X) := by
    intro l
    induction l with
    | nil => intro X hX; exact hX
    | cons c rest ih =>
      intro X hX
      exact ih _ (components_add_cell X c hX)
  refine h cells [] ⟨?_, ?_⟩
  · intro cl1 h1; simp at h1
  · intro cl h1; simp at h1

theorem touches_iff (c : cell) (l : List cell) :
    touches c l = true ↔ touches_class c (Multiset.ofList l) := by
  simp [touches, touches_class]

theorem cluster_classes_filter (p : List cell → Bool) (q : Multiset cell → Prop)
    [DecidablePred q] (hpq : ∀ l : List cell, p l = true ↔ q (Multiset.ofList l))
    (X : List (List cell)) :
    cluster_classes (X.filter p) = (cluster_classes X).filter q := by
  unfold cluster_classes
  induction X with
  | nil => rfl
  | cons l rest ih =>
    by_cases h : p l = true
    · have hq : q (Multiset.ofList l) := (hpq l).1 h
      rw [List.filter_cons_of_pos h, List.map_cons, List.map_cons, ← Multiset.cons_coe,
        ← Multiset.cons_coe, Multiset.filter_cons_of_pos _ hq, ih]
    · have hq : ¬ q (Multiset.ofList l) := fun hq => h ((hpq l).2 hq)
      rw [List.filter_cons_of_neg h, List.map_cons, ← Multiset.cons_coe,
        Multiset.filter_cons_of_neg _ hq, ih]

theorem cluster_classes_add_cell (X : List (List cell)) (c : cell) :
    cluster_classes (add_cell X c) = add_cell_class (cluster_classes X) c := by
  unfold add_cell add_cell_class
  rw [← cluster_classes_filter (touches c) (touches_class c) (touches_iff c),
    ← cluster_classes_filter (fun cl => !touches c cl) (fun s => ¬ touches_class c s)
      (fun l => by simp [← touches_iff])]
  unfold cluster_classes
  rw [Multiset.coe_join, List.map_cons, ← Multiset.cons_coe, ← Multiset.cons_coe]

/-- Whether the cluster made for `a` is touched by `b`. -/
theorem touches_class_new (P : Multiset (Multiset cell)) (a b : cell) :
    touches_class b (a ::ₘ (P.filter (touches_class a)).join) ↔
      (is_adjacent a b = true ∨ ∃ s ∈ P, touches_class a s ∧ touches_class b s) := by
  constructor
  · rintro ⟨x, hx, hbx⟩
    rw [Multiset.mem_cons] at hx
    rcases hx with rfl | hx
    · left; rw [is_adjacent_symm]; exact hbx
    · obtain ⟨s, hs, hxs⟩ := Multiset.mem_join.1 hx
      rw [Multiset.mem_filter] at hs
      exact Or.inr ⟨s, hs.1, hs.2, x, hxs, hbx⟩
  · rintro (h | ⟨s, hs, hsa, x, hxs, hbx⟩)
    · exact ⟨a, Multiset.mem_cons_self _ _, by rw [is_adjacent_symm]; exact h⟩
    · exact ⟨x, Multiset.mem_cons_of_mem
        (Multiset.mem_join.2 ⟨s, Multiset.mem_filter.2 ⟨hs, hsa⟩, hxs⟩), hbx⟩

theorem add_cell_class_linked (P : Multiset (Multiset cell)) (a b : cell)
    (h : touches_class b (a ::ₘ (P.filter (touches_class a)).join)) :
    add_cell_class (add_cell_class P a) b =
      (b ::ₘ a ::ₘ (P.filter (fun s => touches_class a s ∨ touches_class b s)).join) ::ₘ
        P.filter (fun s => ¬ (touches_class a s ∨ touches_class b s)) := by
  have e1 : Multiset.filter (touches_class b)
      ((a ::ₘ (P.filter (touches_class a)).join) ::ₘ P.filter (fun s => ¬ touches_class a s)) =
      (a ::ₘ (P.filter (touches_class a)).join) ::ₘ
        Multiset.filter (touches_class b) (P.filter (fun s => ¬ touches_class a s)) :=
    Multiset.filter_cons_of_pos _ h
  have e2 : Multiset.filter (fun s => ¬ touches_class b s)
      ((a ::ₘ (P.filter (touches_class a)).join) ::ₘ P.filter (fun s => ¬ touches_class a s)) =
      Multiset.filter (fun s => ¬ touches_class b s) (P.filter (fun s => ¬ touches_class a s)) :=
    Multiset.filter_cons_of_neg _ (fun hn => hn h)
  have e3 : P.filter (touches_class a) +
      Multiset.filter (touches_class b) (P.filter (fun s => ¬ touches_class a s)) =
      P.filter (fun s => touches_class a s ∨ touches_class b s) := by
    rw [Multiset.filter_filter]
    have h1 := Multiset.filter_add_filter (touches_class a)
      (fun s => touches_class b s ∧ ¬ touches_class a s) P
    have h2 : Multiset.filter
        (fun s => touches_class a s ∧ touches_class b s ∧ ¬ touches_class a s) P = 0 := by
      rw [Multiset.filter_eq_nil]
      intro s _ hs
      exact hs.2.2 hs.1
    rw [h2, add_zero] at h1
    rw [h1]
    apply Multiset.filter_congr
    intro s _
    tauto
  have e4 : Multiset.filter (fun s => ¬ touches_class b s)
      (P.filter (fun s => ¬ touches_class a s)) =
      P.filter (fun s => ¬ (touches_class a s ∨ touches_class b s)) := by
    rw [Multiset.filter_filter]
    apply Multiset.filter_congr
    intro s _
    tauto
  unfold add_cell_class
  rw [e1, e2, e4, Multiset.join_cons, Multiset.cons_add, ← Multiset.join_add, e3]

theorem add_cell_class_apart (P : Multiset (Multiset cell)) (a b : cell)
    (h : ¬ touches_class b (a ::ₘ (P.filter (touches_class a)).join)) :
    add_cell_class (add_cell_class P a) b =
      (b ::ₘ (P.filter (touches_class b)).join) ::ₘ
        (a ::ₘ (P.filter (touches_class a)).join) ::ₘ
        P.filter (fun s => ¬ (touches_class a s ∨ touches_class b s)) := by
  have hsep : ∀ s ∈ P, touches_class a s → ¬ touches_class b s := by
    intro s hs hsa hsb
    exact h ((touches_class_new P a b).2 (Or.inr ⟨s, hs, hsa, hsb⟩))
  have e1 : Multiset.filter (touches_class b)
      ((a ::ₘ (P.filter (touches_class a)).join) ::ₘ P.filter (fun s => ¬ touches_class a s)) =
      Multiset.filter (touches_class b) (P.filter (fun s => ¬ touches_class a s)) :=
    Multiset.filter_cons_of_neg _ h
  have e2 : Multiset.filter (fun s => ¬ touches_class b s)
      ((a ::ₘ (P.filter (touches_class a)).join) ::ₘ P.filter (fun s => ¬ touches_class a s)) =
      (a ::ₘ (P.filter (touches_class a)).join) ::ₘ
        Multiset.filter (fun s => ¬ touches_class b s)
          (P.filter (fun s => ¬ touches_class a s)) :=
    Multiset.filter_cons_of_pos _ h
  have e3 : Multiset.filter (touches_class b) (P.filter (fun s => ¬ touches_class a s)) =
      P.filter (touches_class b) := by
    rw [Multiset.filter_filter]
    apply Multiset.filter_congr
    intro s hs
    constructor
    · exact fun hh => hh.1
    · exact fun hh => ⟨hh, fun ha => hsep s hs ha hh⟩
  have e4 : Multiset.filter (fun s => ¬ touches_class b s)
      (P.filter (fun s => ¬ touches_class a s)) =
      P.filter (fun s => ¬ (touches_class a s ∨ touches_class b s)) := by
    rw [Multiset.filter_filter]
    apply Multiset.filter_congr
    intro s _
    tauto
  unfold add_cell_class
  rw [e1, e2, e3, e4]

/-- The order in which two cells are added does not matter for the classes. -/
theorem add_cell_class_comm (P : Multiset (Multiset cell)) (a b : cell) :
    add_cell_class (add_cell_class P a) b = add_cell_class (add_cell_class P b) a := by
  have hiff : touches_class b (a ::ₘ (P.filter (touches_class a)).join) ↔
      touches_class a (b ::ₘ (P.filter (touches_class b)).join) := by
    rw [touches_class_new, touches_class_new, is_adjacent_symm a b]
    constructor
    · rintro (h | ⟨s, hs, h1, h2⟩)
      · exact Or.inl h
      · exact Or.inr ⟨s, hs, h2, h1⟩
    · rintro (h | ⟨s, hs, h1, h2⟩)
      · exact Or.inl h
      · exact Or.inr ⟨s, hs, h2, h1⟩
  by_cases h : touches_class b (a ::ₘ (P.filter (touches_class a)).join)
  · rw [add_cell_class_linked P a b h, add_cell_class_linked P b a (hiff.1 h),
      Multiset.cons_swap a b]
    congr 1
    · congr 3
      apply Multiset.filter_congr
      intro s _
      exact or_comm
    · apply Multiset.filter_congr
      intro s _
      rw [or_comm]
  · rw [add_cell_class_apart P a b h, add_cell_class_apart P b a (fun hh => h (hiff.2 hh)),
      Multiset.cons_swap]
    congr 2
    apply Multiset.filter_congr
    intro s _
    rw [or_comm]

theorem cluster_classes_foldl (cells : List cell) :
    ∀ X : List (List cell),
      cluster_classes (cells.foldl add_cell X) =
        cells.foldl add_cell_class (cluster_classes X) := by
  induction cells with
  | nil => intro X; rfl
  | cons c rest ih =>
    intro X
    simp only [List.foldl_cons]
    rw [ih, cluster_classes_add_cell]

/-- The clusters of a rearranged cell sequence are the clusters of the original
sequence, as a collection of collections of cells. -/
theorem cluster_classes_perm (cells1 cells2 : List cell) (h : cells1.Perm cells2) :
    cluster_classes (clusters_of cells1) = cluster_classes (clusters_of cells2) := by
  unfold clusters_of
  rw [cluster_classes_foldl, cluster_classes_foldl]
  exact List.Perm.foldl_eq' h (fun x _ y _ z => add_cell_class_comm z x y) _

theorem extent_perm (l1 l2 : List Nat) (h : l1.Perm l2) : extent l1 = extent l2 := by
  unfold extent
  have hmax : ∀ init : Nat, l1.foldr max init = l2.foldr max init :=
    fun init => List.Perm.foldr_eq' h (fun x _ y _ z => max_left_comm y x z) init
  have hmin : ∀ init : Nat, l1.foldr min init = l2.foldr min init :=
    fun init => List.Perm.foldr_eq' h (fun x _ y _ z => min_left_comm y x z) init
  rw [hmax, hmin]

/-- The measurement of a cluster does not depend on the order of its cells. -/
theorem measurement_of_perm (variance : Nat → scalar) (module : Nat) (l1 l2 : List cell)
    (h : l1.Perm l2) : measurement_of variance module l1 = measurement_of variance module l2 := by
  unfold measurement_of
  rw [(h.map (fun c : cell => c.activation)).sum_eq,
    (h.map (fun c : cell => c.activation * (c.channel0 : scalar))).sum_eq,
    (h.map (fun c : cell => c.activation * (c.channel1 : scalar))).sum_eq,
    extent_perm _ _ (h.map (fun c : cell => c.channel0)),
    extent_perm _ _ (h.map (fun c : cell => c.channel1))]

/-- C5: clustering a rearrangement of the cell sequence of a module yields a
rearrangement of the measurements of the original sequence: the same
measurements, each as often (in exact arithmetic). -/
theorem clustering_order_independent (variance : Nat → scalar) (module : Nat)
    (cells1 cells2 : List cell) (h : cells1.Perm cells2) :
    (clusterize_module variance module cells1).Perm
      (clusterize_module variance module cells2) := by
  have hcl := cluster_classes_perm cells1 cells2 h
  unfold cluster_classes at hcl
  have hperm : ((clusters_of cells1).map Multiset.ofList).Perm
      ((clusters_of cells2).map Multiset.ofList) := Quotient.exact hcl
  have hmap := hperm.map (fun s : Multiset cell =>
    Quot.liftOn s (measurement_of variance module)
      (fun l1 l2 hl => measurement_of_perm variance module l1 l2 hl))
  simp only [List.map_map] at hmap
  exact hmap

theorem clustering_order_independent_witness :
    (clusterize_module (fun e => e / 12) 0 demoCells).Perm
      (clusterize_module (fun e => e / 12) 0 demoCells.reverse) :=
  clustering_order_independent (fun e => e / 12) 0 demoCells demoCells.reverse
    (List.reverse_perm demoCells).symm

/-! ## Properties of the spacepoint grid -/

theorem mem_grid_insert (cfg : spacepoint_grid_config) (g : spacepoint_grid cfg) (i j : Nat)
    (sp : spacepoint) (b : Fin cfg.nbins) :
    j ∈ grid_insert cfg g i sp b ↔ j ∈ g b ∨ (j = i ∧ cfg.bin sp.global = b) := by
  unfold grid_insert
  by_cases hb : b = cfg.bin sp.global
  · simp [hb]
  · simp [hb, Ne.symm hb]

/-- Which references a bin holds after the insertion loop. -/
theorem mem_spacepoint_binning_from (cfg : spacepoint_grid_config) (sps : List spacepoint) :
    ∀ (i : Nat) (g : spacepoint_grid cfg) (j : Nat) (b : Fin cfg.nbins),
      j ∈ spacepoint_binning_from cfg i sps g b ↔
        j ∈ g b ∨ (i ≤ j ∧ ∃ sp, sps[j - i]? = some sp ∧ cfg.bin sp.global = b) := by
  induction sps with
  | nil =>
    intro i g j b
    simp [spacepoint_binning_from]
  | cons sp0 rest ih =>
    intro i g j b
    simp only [spacepoint_binning_from]
    rw [ih, mem_grid_insert]
    constructor
    · rintro ((h | ⟨rfl, h⟩) | ⟨hle, sp, hsp, hb⟩)
      · exact Or.inl h
      · exact Or.inr ⟨le_refl _, sp0, by simp, h⟩
      · refine Or.inr ⟨by omega, sp, ?_, hb⟩
        have : j - i = (j - (i + 1)) + 1 := by omega
        rw [this, List.getElem?_cons_succ]
        exact hsp
    · rintro (h | ⟨hle, sp, hsp, hb⟩)
      · exact Or.inl (Or.inl h)
      · by_cases hji : j = i
        · subst hji
          simp at hsp
          subst hsp
          exact Or.inl (Or.inr ⟨rfl, hb⟩)
        · refine Or.inr ⟨by omega, sp, ?_, hb⟩
          have : j - i = (j - (i + 1)) + 1 := by omega
          rw [this, List.getElem?_cons_succ] at hsp
          exact hsp

/-- Inserting a reference adds it once to the union of the bins. -/
theorem flatMap_grid_insert (cfg : spacepoint_grid_config) (g : spacepoint_grid cfg) (i : Nat)
    (sp : spacepoint) :
    ∀ bins : List (Fin cfg.nbins), bins.Nodup →
      (bins.flatMap (grid_insert cfg g i sp)).Perm
        ((if cfg.bin sp.global ∈ bins then [i] else []) ++ bins.flatMap g) := by
  intro bins
  induction bins with
  | nil => intro _; simp
  | cons b rest ih =>
    intro hnd
    rw [List.nodup_cons] at hnd
    simp only [List.flatMap_cons]
    by_cases hb : b = cfg.bin sp.global
    · have hnot : cfg.bin sp.global ∉ rest := hb ▸ hnd.1
      have h1 := ih hnd.2
      simp only [hnot, if_false, List.nil_append] at h1
      have hins : grid_insert cfg g i sp b = g b ++ [i] := by simp [grid_insert, hb]
      rw [hins]
      have hmem : cfg.bin sp.global ∈ b :: rest := by simp [hb]
      simp only [hmem, if_true]
      refine ((List.perm_append_comm.append_right _).trans ?_)
      simp only [List.singleton_append, List.cons_append, List.nil_append]
      exact List.Perm.cons _ (List.Perm.append_left _ h1)
    · have hins : grid_insert cfg g i sp b = g b := by simp [grid_insert, hb]
      rw [hins]
      have hiff : cfg.bin sp.global ∈ b :: rest ↔ cfg.bin sp.global ∈ rest := by
        simp [Ne.symm hb]
      have h1 := ih hnd.2
      by_cases hin : cfg.bin sp.global ∈ rest
      · simp only [hin, hiff.2 hin, if_true] at h1 ⊢
        refine (List.Perm.append_left _ h1).trans ?_
        simp only [List.singleton_append]
        exact List.perm_middle
      · have hin2 : cfg.bin sp.global ∉ b :: rest := fun h => hin (hiff.1 h)
        simp only [hin, hin2, if_false, List.nil_append] at h1 ⊢
        exact List.Perm.append_left _ h1

/-- The insertion loop adds every reference once to the union of the bins. -/
theorem grid_contents_binning_from (cfg : spacepoint_grid_config) (sps : List spacepoint) :
    ∀ (i : Nat) (g : spacepoint_grid cfg),
      (grid_contents cfg (spacepoint_binning_from cfg i sps g)).Perm
        (grid_contents cfg g ++ List.range' i sps.length) := by
  induction sps with
  | nil =>
    intro i g
    simp [spacepoint_binning_from]
  | cons sp0 rest ih =>
    intro i g
    simp only [spacepoint_binning_from, List.length_cons, List.range'_succ]
    refine (ih (i + 1) (grid_insert cfg g i sp0)).trans ?_
    have h := flatMap_grid_insert cfg g i sp0 (List.finRange cfg.nbins) (List.nodup_finRange _)
    simp only [List.mem_finRange, if_true, List.singleton_append] at h
    unfold grid_contents
    refine (h.append_right _).trans ?_
    simp only [List.cons_append]
    exact List.perm_middle.symm

/-- C2: after the grid of an event is built, a spacepoint reference sits in a
bin exactly when that bin is the one computed from the coordinates of the
spacepoint; the union of all bins is a rearrangement of the references of the
input (nothing lost, nothing duplicated); and two spacepoints with the same
coordinates, at any place of any two inputs, lie in bins of the same index. -/
theorem grid_coverage (cfg : spacepoint_grid_config) (sps : List spacepoint) :
    (∀ (j : Nat) (b : Fin cfg.nbins),
        j ∈ spacepoint_binning cfg sps b ↔
          ∃ sp, sps[j]? = some sp ∧ cfg.bin sp.global = b) ∧
      (grid_contents cfg (spacepoint_binning cfg sps)).Perm (List.range sps.length) ∧
      (∀ (sps2 : List spacepoint) (i j : Nat) (sp sp2 : spacepoint) (b b2 : Fin cfg.nbins),
        sps[i]? = some sp → sps2[j]? = some sp2 → sp.global = sp2.global →
        i ∈ spacepoint_binning cfg sps b → j ∈ spacepoint_binning cfg sps2 b2 →
        b = b2) := by
  have hmem : ∀ (l : List spacepoint) (j : Nat) (b : Fin cfg.nbins),
      j ∈ spacepoint_binning cfg l b ↔ ∃ sp, l[j]? = some sp ∧ cfg.bin sp.global = b := by
    intro l j b
    unfold spacepoint_binning
    rw [mem_spacepoint_binning_from]
    simp [empty_grid]
  refine ⟨hmem sps, ?_, ?_⟩
  · have h := grid_contents_binning_from cfg sps 0 (empty_grid cfg)
    have hempty : grid_contents cfg (empty_grid cfg) = [] := by
      simp [grid_contents, empty_grid]
    rw [hempty, List.nil_append] at h
    rw [List.range_eq_range']
    exact h
  · intro sps2 i j sp sp2 b b2 hi hj hglob hb hb2
    obtain ⟨s, hs, hsb⟩ := (hmem sps i b).1 hb
    obtain ⟨s2, hs2, hsb2⟩ := (hmem sps2 j b2).1 hb2
    rw [hi] at hs
    rw [hj] at hs2
    cases hs
    cases hs2
    rw [← hsb, ← hsb2, hglob]

theorem grid_coverage_witness :
    (grid_contents demoGridConfig (spacepoint_binning demoGridConfig demoSpacepoints)).Perm
        (List.range 4) ∧
      ∀ b2 : Fin demoGridConfig.nbins,
        3 ∈ spacepoint_binning demoGridConfig demoSpacepoints.reverse b2 → (0 : Fin 4) = b2 :=
  ⟨(grid_coverage demoGridConfig demoSpacepoints).2.1,
    fun b2 h => (grid_coverage demoGridConfig demoSpacepoints).2.2 demoSpacepoints.reverse 0 3
      { global := { x := 30, y := 1, z := 0 }, meas := 0, meas2 := none }
      { global := { x := 30, y := 1, z := 0 }, meas := 0, meas2 := none } (0 : Fin 4) b2
      rfl rfl rfl (by decide) h⟩

/-! ## Properties of the seed finder -/

/-- The suppression keeps the seeds kept before, followed by some of the
candidates, in their order. -/
theorem keep_incompatible_sublist {α : Type} (R : α → α → Bool) :
    ∀ (l kept : List α), List.Sublist (keep_incompatible R kept l) (kept ++ l) := by
  intro l
  induction l with
  | nil => intro kept; simp [keep_incompatible]
  | cons y rest ih =>
    intro kept
    simp only [keep_incompatible]
    split
    · exact (ih kept).trans
        (List.Sublist.append (List.Sublist.refl _) (List.sublist_cons_self _ _))
    · have h := ih (kept ++ [y])
      rwa [List.append_assoc, List.singleton_append] at h

/-- A seed that comes out of the suppression was kept before or is one of the
candidates. -/
theorem mem_keep_incompatible {α : Type} (R : α → α → Bool) (x : α) (l kept : List α)
    (h : x ∈ keep_incompatible R kept l) : x ∈ kept ∨ x ∈ l :=
  List.mem_append.1 ((keep_incompatible_sublist R l kept).subset h)

/-- When no candidate is compatible with another seed, every candidate is
kept. -/
theorem keep_incompatible_of_forall_false {α : Type} (R : α → α → Bool)
    (hR : ∀ a b, R a b = false) :
    ∀ (l kept : List α), keep_incompatible R kept l = kept ++ l := by
  intro l
  induction l with
  | nil => intro kept; simp [keep_incompatible]
  | cons y rest ih =>
    intro kept
    simp only [keep_incompatible, hR, List.any_eq_true, Bool.false_eq_true, and_false,
      exists_false, if_false]
    rw [ih]
    simp

/-- No kept seed is compatible with a seed kept after it. -/
theorem keep_incompatible_pairwise {α : Type} (R : α → α → Bool) :
    ∀ (l kept : List α), kept.Pairwise (fun a b => R a b = false) →
      (keep_incompatible R kept l).Pairwise (fun a b => R a b = false) := by
  intro l
  induction l with
  | nil => intro kept h; exact h
  | cons y rest ih =>
    intro kept h
    simp only [keep_incompatible]
    split
    · exact ih _ h
    · rename_i hany
      apply ih
      rw [List.pairwise_append]
      refine ⟨h, List.pairwise_singleton _ _, ?_⟩
      intro a ha b hb
      rw [List.mem_singleton] at hb
      subst hb
      by_contra hab
      apply hany
      rw [List.any_eq_true]
      exact ⟨a, ha, by simpa using hab⟩

/-- A seed retained for a middle point is one of its triplets that pass the
hard cuts, with the score of that triplet. -/
theorem mem_seeds_of_middle (k : seed_kernels) (cfg : seedfinder_config)
    (fcfg : seedfilter_config) (sps : List spacepoint) (lookup : List Nat) (kept : List seed)
    (m : Nat) (s : seed) (hs : s ∈ seeds_of_middle k cfg fcfg sps lookup kept m) :
    ∃ bt ∈ triplets_of k cfg sps lookup m,
      s = { spB_link := bt.1, spM_link := m, spT_link := bt.2,
            weight := k.score kept (position_of sps bt.1) (position_of sps m)
              (position_of sps bt.2) } := by
  unfold seeds_of_middle at hs
  have h1 := List.mem_of_mem_take hs
  rcases mem_keep_incompatible _ s _ _ h1 with h2 | h2
  · simp at h2
  · rw [List.mem_insertionSort] at h2
    obtain ⟨bt, hbt, rfl⟩ := List.mem_map.1 h2
    exact ⟨bt, hbt, rfl⟩

/-- The seeds retained for a middle point are at most `maxSeedsPerSpM`, and at
most as many as its triplets that pass the hard cuts. -/
theorem length_seeds_of_middle_le (k : seed_kernels) (cfg : seedfinder_config)
    (fcfg : seedfilter_config) (sps : List spacepoint) (lookup : List Nat) (kept : List seed)
    (m : Nat) :
    (seeds_of_middle k cfg fcfg sps lookup kept m).length ≤
      min fcfg.maxSeedsPerSpM (triplets_of k cfg sps lookup m).length := by
  unfold seeds_of_middle
  simp only [List.length_take]
  have h := (keep_incompatible_sublist (seeds_compatible k sps m)
    (((triplets_of k cfg sps lookup m).map (fun bt =>
      ({ spB_link := bt.1, spM_link := m, spT_link := bt.2,
         weight := k.score kept (position_of sps bt.1) (position_of sps m)
           (position_of sps bt.2) } : seed))).insertionSort (seed_before k sps)) []).length_le
  simp only [List.nil_append, List.length_insertionSort, List.length_map] at h
  exact le_min (min_le_left _ _) ((min_le_right _ _).trans h)

/-- When no two seeds are compatible, the seeds retained for a middle point
are its triplets that pass the hard cuts, up to `maxSeedsPerSpM`. -/
theorem length_seeds_of_middle (k : seed_kernels) (cfg : seedfinder_config)
    (fcfg : seedfilter_config) (sps : List spacepoint) (lookup : List Nat) (kept : List seed)
    (m : Nat) (hk : ∀ pm p q, k.compatible pm p q = false) :
    (seeds_of_middle k cfg fcfg sps lookup kept m).length =
      min fcfg.maxSeedsPerSpM (triplets_of k cfg sps lookup m).length := by
  unfold seeds_of_middle
  simp only [List.length_take]
  rw [keep_incompatible_of_forall_false (seeds_compatible k sps m) (fun a b => hk _ _ _)]
  simp [List.length_insertionSort]

theorem spM_link_of_mem_seeds_of_middle (k : seed_kernels) (cfg : seedfinder_config)
    (fcfg : seedfilter_config) (sps : List spacepoint) (lookup : List Nat) (kept : List seed)
    (m : Nat) (s : seed) (hs : s ∈ seeds_of_middle k cfg fcfg sps lookup kept m) :
    s.spM_link = m := by
  obtain ⟨bt, _, rfl⟩ := mem_seeds_of_middle k cfg fcfg sps lookup kept m s hs
  rfl

theorem seeds_with_middle_append (l1 l2 : List seed) (m : Nat) :
    seeds_with_middle (l1 ++ l2) m = seeds_with_middle l1 m + seeds_with_middle l2 m := by
  simp [seeds_with_middle]

/-- The seeds of one middle point count towards that middle point only, and
there are at most `maxSeedsPerSpM` of them. -/
theorem seeds_with_middle_seeds_of_middle (k : seed_kernels) (cfg : seedfinder_config)
    (fcfg : seedfilter_config) (sps : List spacepoint) (lookup : List Nat) (kept : List seed)
    (m0 m : Nat) :
    seeds_with_middle (seeds_of_middle k cfg fcfg sps lookup kept m0) m ≤
      fcfg.maxSeedsPerSpM * (if m0 = m then 1 else 0) := by
  by_cases h : m0 = m
  · simp only [h, if_true, Nat.mul_one]
    unfold seeds_with_middle
    refine (List.length_filter_le _ _).trans ?_
    exact (length_seeds_of_middle_le k cfg fcfg sps lookup kept m).trans (Nat.min_le_left _ _)
  · simp only [h, if_false, Nat.mul_zero, Nat.le_zero]
    unfold seeds_with_middle
    rw [List.length_eq_zero, List.filter_eq_nil_iff]
    intro s hs
    have := spM_link_of_mem_seeds_of_middle k cfg fcfg sps lookup kept m0 s hs
    simp [this, h]

theorem seeds_with_middle_seed_finding (k : seed_kernels) (cfg : seedfinder_config)
    (gcfg : spacepoint_grid_config) (fcfg : seedfilter_config) (sps : List spacepoint)
    (g : spacepoint_grid gcfg) (m : Nat) :
    ∀ (trav : List (Nat × Fin gcfg.nbins)) (kept : List seed),
      seeds_with_middle (seed_finding k cfg gcfg fcfg sps g trav kept) m ≤
        seeds_with_middle kept m + fcfg.maxSeedsPerSpM * (trav.map Prod.fst).count m := by
  intro trav
  induction trav with
  | nil => intro kept; simp [seed_finding]
  | cons mb rest ih =>
    intro kept
    simp only [seed_finding, List.map_cons, List.count_cons]
    refine (ih _).trans ?_
    rw [seeds_with_middle_append]
    have h := seeds_with_middle_seeds_of_middle k cfg fcfg sps (grid_lookup gcfg g mb.2) kept
      mb.1 m
    have hif : (if mb.1 = m then 1 else 0) = (if (mb.1 == m) = true then 1 else 0) := by
      by_cases hm : mb.1 = m <;> simp [hm]
    rw [hif] at h
    rw [Nat.mul_add]
    omega

theorem map_fst_middle_points (gcfg : spacepoint_grid_config) (g : spacepoint_grid gcfg) :
    (middle_points gcfg g).map Prod.fst = grid_contents gcfg g := by
  unfold middle_points grid_contents
  generalize List.finRange gcfg.nbins = bins
  induction bins with
  | nil => rfl
  | cons b rest ih =>
    simp only [List.flatMap_cons, List.map_append, ih, List.map_map]
    congr 1
    exact List.map_id _

/-- Every spacepoint is a middle point at most once in the traversal. -/
theorem count_middle_points_le_one (gcfg : spacepoint_grid_config) (sps : List spacepoint)
    (m : Nat) :
    ((middle_points gcfg (spacepoint_binning gcfg sps)).map Prod.fst).count m ≤ 1 := by
  rw [map_fst_middle_points]
  have h := grid_contents_binning_from gcfg sps 0 (empty_grid gcfg)
  have hempty : grid_contents gcfg (empty_grid gcfg) = [] := by
    simp [grid_contents, empty_grid]
  rw [hempty, List.nil_append] at h
  have hnd : (grid_contents gcfg (spacepoint_binning gcfg sps)).Nodup :=
    (List.Perm.nodup_iff h).2 (List.nodup_range' _ _)
  exact List.nodup_iff_count_le_one.1 hnd m

/-- C3: in the seeds output for an event, the seeds of any single middle
spacepoint are at most `maxSeedsPerSpM`, and the seeds of the event are at most
`maxSeeds`. -/
theorem capacity_bound (k : seed_kernels) (finder_config : seedfinder_config)
    (grid_config : spacepoint_grid_config) (filter_config : seedfilter_config)
    (sps : List spacepoint) :
    (∀ m : Nat,
        seeds_with_middle
          (seeding_algorithm k finder_config grid_config filter_config sps) m ≤
          filter_config.maxSeedsPerSpM) ∧
      (seeding_algorithm k finder_config grid_config filter_config sps).length ≤
        filter_config.maxSeeds := by
  constructor
  · intro m
    unfold seeding_algorithm
    have h1 := seeds_with_middle_seed_finding k finder_config grid_config filter_config sps
      (spacepoint_binning grid_config sps) m
      (middle_points grid_config (spacepoint_binning grid_config sps)) []
    have h2 := count_middle_points_le_one grid_config sps m
    have h3 : seeds_with_middle
        ((seed_finding k finder_config grid_config filter_config sps
          (spacepoint_binning grid_config sps)
          (middle_points grid_config (spacepoint_binning grid_config sps)) []).take
            filter_config.maxSeeds) m ≤
        seeds_with_middle
          (seed_finding k finder_config grid_config filter_config sps
            (spacepoint_binning grid_config sps)
            (middle_points grid_config (spacepoint_binning grid_config sps)) []) m := by
      unfold seeds_with_middle
      exact ((List.take_sublist _ _).filter _).length_le
    have h4 : seeds_with_middle ([] : List seed) m = 0 := rfl
    rw [h4, Nat.zero_add] at h1
    calc _ ≤ _ := h3
      _ ≤ _ := h1
      _ ≤ filter_config.maxSeedsPerSpM * 1 := Nat.mul_le_mul_left _ h2
      _ = _ := Nat.mul_one _
  · unfold seeding_algorithm
    simp only [List.length_take]
    exact Nat.min_le_left _ _

theorem mem_triplets_of (k : seed_kernels) (cfg : seedfinder_config) (sps : List spacepoint)
    (lookup : List Nat) (m : Nat) (bt : Nat × Nat) (h : bt ∈ triplets_of k cfg sps lookup m) :
    bt.1 ∈ lookup ∧ bt.2 ∈ lookup ∧
      triplet_passes k cfg (position_of sps bt.1) (position_of sps m) (position_of sps bt.2) := by
  unfold triplets_of at h
  obtain ⟨b, hb, hbt⟩ := List.mem_flatMap.1 h
  obtain ⟨t, ht, rfl⟩ := List.mem_map.1 hbt
  obtain ⟨ht1, ht2⟩ := List.mem_filter.1 ht
  unfold bottoms_of at hb
  unfold tops_of at ht1
  obtain ⟨hb1, hb2⟩ := List.mem_filter.1 hb
  obtain ⟨ht3, ht4⟩ := List.mem_filter.1 ht1
  simp only [Bool.and_eq_true, decide_eq_true_eq] at hb2 ht4 ht2
  exact ⟨hb1, ht3, hb2.1, ht4.1, hb2.2.2, ht4.2.2, ht2⟩

theorem mem_seed_finding (k : seed_kernels) (cfg : seedfinder_config)
    (gcfg : spacepoint_grid_config) (fcfg : seedfilter_config) (sps : List spacepoint)
    (g : spacepoint_grid gcfg) (s : seed) :
    ∀ (trav : List (Nat × Fin gcfg.nbins)) (kept : List seed),
      s ∈ seed_finding k cfg gcfg fcfg sps g trav kept →
      s ∈ kept ∨ ∃ mb ∈ trav, ∃ kept0 : List seed,
        s ∈ seeds_of_middle k cfg fcfg sps (grid_lookup gcfg g mb.2) kept0 mb.1 := by
  intro trav
  induction trav with
  | nil => intro kept h; exact Or.inl h
  | cons mb rest ih =>
    intro kept h
    simp only [seed_finding] at h
    rcases ih _ h with h1 | ⟨mb1, hmb1, kept0, h2⟩
    · rcases List.mem_append.1 h1 with h3 | h3
      · exact Or.inl h3
      · exact Or.inr ⟨mb, List.mem_cons_self _ _, kept, h3⟩
    · exact Or.inr ⟨mb1, List.mem_cons_of_mem _ hmb1, kept0, h2⟩

/-- No seed is retained that fails a hard cut: the three spacepoints of every
output seed are ordered in radius and pass the cuts on both pairs and on the
triplet. -/
theorem retained_seeds_pass_cuts (k : seed_kernels) (finder_config : seedfinder_config)
    (grid_config : spacepoint_grid_config) (filter_config : seedfilter_config)
    (sps : List spacepoint) (s : seed)
    (hs : s ∈ seeding_algorithm k finder_config grid_config filter_config sps) :
    triplet_passes k finder_config (position_of sps s.spB_link) (position_of sps s.spM_link)
      (position_of sps s.spT_link) := by
  unfold seeding_algorithm at hs
  rcases mem_seed_finding k finder_config grid_config filter_config sps _ s _ _
    (List.mem_of_mem_take hs) with h | ⟨mb, _, kept0, h⟩
  · simp at h
  · obtain ⟨bt, hbt, rfl⟩ := mem_seeds_of_middle k finder_config filter_config sps _ kept0 mb.1 s h
    exact (mem_triplets_of k finder_config sps _ mb.1 bt hbt).2.2

/-- No two seeds retained for a middle point are compatible: the seed
invariant of section 3. -/
theorem seeds_of_middle_pairwise (k : seed_kernels) (cfg : seedfinder_config)
    (fcfg : seedfilter_config) (sps : List spacepoint) (lookup : List Nat) (kept : List seed)
    (m : Nat) :
    (seeds_of_middle k cfg fcfg sps lookup kept m).Pairwise
      (fun s1 s2 => seeds_compatible k sps m s1 s2 = false) := by
  unfold seeds_of_middle
  exact (keep_incompatible_pairwise _ _ [] List.Pairwise.nil).sublist (List.take_sublist _ _)

/-- The iteration with index `iseed` of the loop over the track parameters
runs the body on the entry at position `iseed`. -/
theorem trackFindingLoop_append (findTracks : bound_track_parameters → FindResult)
    (sel : Option (Track → Bool)) (p : bound_track_parameters) :
    ∀ (ps : List bound_track_parameters) (i : Nat) (st : TrackFindingState),
      trackFindingLoop findTracks sel i (ps ++ [p]) st =
        trackFindingBody findTracks sel (trackFindingLoop findTracks sel i ps st)
          (i + ps.length) p := by
  intro ps
  induction ps with
  | nil => intro i st; simp [trackFindingLoop]
  | cons q rest ih =>
    intro i st
    have hstep : trackFindingLoop findTracks sel i (q :: rest ++ [p]) st =
        trackFindingLoop findTracks sel (i + 1) (rest ++ [p])
          (trackFindingBody findTracks sel st i q) := rfl
    have hstep2 : trackFindingLoop findTracks sel i (q :: rest) st =
        trackFindingLoop findTracks sel (i + 1) rest
          (trackFindingBody findTracks sel st i q) := rfl
    rw [hstep, hstep2, ih, List.length_cons]
    congr 1
    omega

/-- C6: in an event processed with the algorithms of the specification, the
collection of track parameter estimates has the size of the seed collection
and its entry at index `i` is the estimate of the seed at index `i`, computed
from the spacepoints of the event and the field vector (on the host and on the
device path); the loop of the driver visits the estimates by that index. -/
theorem one_estimate_per_seed (env : Collaborators) (run_cpu : Bool) (event : Nat) :
    (eventCollections (referenceAlgorithms env) run_cpu event).params.length =
        (eventCollections (referenceAlgorithms env) run_cpu event).seeds.length ∧
      (∀ i : Nat,
        (eventCollections (referenceAlgorithms env) run_cpu event).params[i]? =
          ((eventCollections (referenceAlgorithms env) run_cpu event).seeds[i]?).map
            (fun s => env.seed_to_bound
              (eventCollections (referenceAlgorithms env) run_cpu event).spacepoints_per_event s
              (fieldVector (referenceAlgorithms env)))) ∧
      (eventCollections (referenceAlgorithms env) run_cpu event).params_cuda.length =
        (eventCollections (referenceAlgorithms env) run_cpu event).seeds_cuda.length ∧
      (∀ i : Nat,
        (eventCollections (referenceAlgorithms env) run_cpu event).params_cuda[i]? =
          ((eventCollections (referenceAlgorithms env) run_cpu event).seeds_cuda[i]?).map
            (fun s => env.seed_to_bound
              (eventCollections (referenceAlgorithms env) run_cpu
                event).spacepoints_per_event_cuda s
              (fieldVector (referenceAlgorithms env)))) ∧
      (∀ (ps : List bound_track_parameters) (p : bound_track_parameters)
        (st : TrackFindingState),
        trackFindingLoop env.findTracks env.m_trackSelector 0 (ps ++ [p]) st =
          trackFindingBody env.findTracks env.m_trackSelector
            (trackFindingLoop env.findTracks env.m_trackSelector 0 ps st) ps.length p) := by
  refine ⟨?_, ?_, ?_, ?_, ?_⟩
  · cases run_cpu <;> simp [eventCollections, referenceAlgorithms, track_params_estimation]
  · intro i
    cases run_cpu <;> simp [eventCollections, referenceAlgorithms, track_params_estimation]
  · simp [eventCollections, referenceAlgorithms, track_params_estimation]
  · intro i
    simp [eventCollections, referenceAlgorithms, track_params_estimation]
  · intro ps p st
    rw [trackFindingLoop_append, Nat.zero_add]

theorem clusterization_algorithm_nil (variance : Nat → scalar) (modules : List Nat) :
    clusterization_algorithm variance [] modules = [] := by
  unfold clusterization_algorithm
  induction modules with
  | nil => rfl
  | cons m rest ih =>
    rw [List.flatMap_cons, ih]
    rfl

theorem middle_points_empty_grid (gcfg : spacepoint_grid_config) :
    middle_points gcfg (empty_grid gcfg) = [] := by
  unfold middle_points empty_grid
  generalize List.finRange gcfg.nbins = bins
  induction bins with
  | nil => rfl
  | cons b rest ih =>
    rw [List.flatMap_cons, ih]
    rfl

theorem seeding_algorithm_nil (k : seed_kernels) (finder_config : seedfinder_config)
    (grid_config : spacepoint_grid_config) (filter_config : seedfilter_config) :
    seeding_algorithm k finder_config grid_config filter_config [] = [] := by
  unfold seeding_algorithm
  have hg : spacepoint_binning grid_config [] = empty_grid grid_config := rfl
  simp only [hg, middle_points_empty_grid, seed_finding, List.take_nil]

/-- C7: an event without cells, processed with the algorithms of the
specification, has no measurement, no spacepoint, no seed and no track
parameter estimate, on the host and on the device path; it leaves the state of
the track finding as it was and adds no track; the event loop goes on with the
next event and `seq_run` returns 0. -/
theorem zero_cells_event (env : Collaborators) (run_cpu : Bool) (st : RunState)
    (event events skip : Nat) (rest : List Nat) (h : (env.read_cells event).cells = []) :
    (eventCollections (referenceAlgorithms env) run_cpu event).measurements_per_event = [] ∧
      (eventCollections (referenceAlgorithms env) run_cpu event).spacepoints_per_event = [] ∧
      (eventCollections (referenceAlgorithms env) run_cpu event).seeds = [] ∧
      (eventCollections (referenceAlgorithms env) run_cpu event).params = [] ∧
      (eventCollections (referenceAlgorithms env) run_cpu event).spacepoints_per_event_cuda
        = [] ∧
      (eventCollections (referenceAlgorithms env) run_cpu event).seeds_cuda = [] ∧
      (eventCollections (referenceAlgorithms env) run_cpu event).params_cuda = [] ∧
      (eventStep (referenceAlgorithms env) run_cpu st event).finding = st.finding ∧
      tracksAddedFor (referenceAlgorithms env) run_cpu st event = [] ∧
      eventLoop (referenceAlgorithms env) run_cpu (event :: rest) st =
        eventLoop (referenceAlgorithms env) run_cpu rest
          (eventStep (referenceAlgorithms env) run_cpu st event) ∧
      (seq_run (referenceAlgorithms env) events skip run_cpu).1 = 0 := by
  have hc : (eventCollections (referenceAlgorithms env) run_cpu event) =
      { read_out_per_event := env.read_cells event
        measurements_per_event := []
        spacepoints_per_event := []
        seeds := []
        params := []
        spacepoints_per_event_cuda := []
        seeds_cuda := []
        params_cuda := [] } := by
    cases run_cpu <;>
      simp [eventCollections, referenceAlgorithms, h, clusterization_algorithm_nil,
        spacepoint_formation, seeding_algorithm_nil, track_params_estimation]
  have hstep : (eventStep (referenceAlgorithms env) run_cpu st event).finding = st.finding := by
    simp only [eventStep, eventTrackFinding, hc]
    cases run_cpu <;> simp [trackFindingLoop]
  refine ⟨by rw [hc], by rw [hc], by rw [hc], by rw [hc], by rw [hc], by rw [hc], by rw [hc],
    hstep, ?_, rfl, rfl⟩
  simp [tracksAddedFor, hstep]

theorem zero_cells_event_witness :
    (demoCollaborators.read_cells 0).cells = [] ∧
      (eventCollections (referenceAlgorithms demoCollaborators) true 0).seeds = [] ∧
      tracksAddedFor (referenceAlgorithms demoCollaborators) true RunState.init 0 = [] :=
  ⟨rfl,
    (zero_cells_event demoCollaborators true RunState.init 0 2 0 [1] rfl).2.2.1,
    (zero_cells_event demoCollaborators true RunState.init 0 2 0 [1] rfl).2.2.2.2.2.2.2.2.1⟩

/-- C10: after `assignGeometryId(g)` the getter returns `g`, whatever the
identifier was before; of two assignments the last one is read back. -/
theorem assignGeometryId_geometryId (o : GeometryObject) (g g0 : GeometryIdentifier) :
    (o.assignGeometryId g).geometryId = g ∧
      ((o.assignGeometryId g0).assignGeometryId g).geometryId = g :=
  ⟨rfl, rfl⟩

/-! ## Seed numbers of the output tracks -/

theorem trackGroup_of_mem_tracksOfSeed (findTracks : bound_track_parameters → FindResult)
    (sel : Option (Track → Bool)) (g : Nat) (p : bound_track_parameters) (t : Track)
    (ht : t ∈ tracksOfSeed findTracks sel g p) : t.trackGroup = g := by
  unfold tracksOfSeed at ht
  cases hres : findTracks p with
  | error e => simp [hres] at ht
  | ok ts =>
    simp only [hres] at ht
    obtain ⟨t0, _, rfl⟩ := List.mem_map.1 (List.mem_of_mem_filter ht)
    rfl

/-- The tracks copied to the output container at iteration `iseed` are those
of the seed at position `iseed`, numbered with the value `nSeed` had on entry
to the loop plus `iseed`. -/
theorem tracksAddedAt_eq (findTracks : bound_track_parameters → FindResult)
    (sel : Option (Track → Bool)) (params : List bound_track_parameters)
    (st : TrackFindingState) (iseed : Nat) (p : bound_track_parameters)
    (hp : params[iseed]? = some p) :
    tracksAddedAt findTracks sel params st iseed =
      tracksOfSeed findTracks sel ((st.nSeed + iseed) % UINT_MOD) p := by
  have hlt : iseed < params.length := by
    by_contra hge
    rw [List.getElem?_eq_none (by omega)] at hp
    cases hp
  unfold tracksAddedAt
  simp only [hp]
  rw [trackFindingBody_tracks, List.drop_left, trackFindingLoop_nSeed, List.length_take,
    Nat.min_eq_left (Nat.le_of_lt hlt)]

/-- The loop copies to the output container, one seed after the other, the
tracks of every seed, numbered with the value `nSeed` had on entry to the loop
plus the index of the seed. -/
theorem trackFindingLoop_tracks_eq (findTracks : bound_track_parameters → FindResult)
    (sel : Option (Track → Bool)) (params : List bound_track_parameters) :
    ∀ (j : Nat) (st : TrackFindingState),
      (trackFindingLoop findTracks sel j params st).tracks =
        st.tracks ++ (List.range params.length).flatMap (fun i =>
          match params[i]? with
          | some p => tracksOfSeed findTracks sel ((st.nSeed + i) % UINT_MOD) p
          | none => []) := by
  induction params with
  | nil => intro j st; simp [trackFindingLoop]
  | cons p rest ih =>
    intro j st
    simp only [trackFindingLoop, List.length_cons]
    rw [ih, trackFindingBody_tracks, trackFindingBody_nSeed, List.range_succ_eq_map,
      List.flatMap_cons, List.append_assoc]
    congr 2
    · simp
    · rw [List.flatMap_map]
      apply List.flatMap_congr
      intro i _
      have hmod : ((st.nSeed + 1) % UINT_MOD + i) % UINT_MOD =
          (st.nSeed + (i + 1)) % UINT_MOD := by
        unfold UINT_MOD
        omega
      simp only [Function.comp, List.getElem?_cons_succ, hmod]

/-- The loop copies to the output container exactly the tracks of its
iterations, one iteration after the other. -/
theorem trackFindingLoop_tracks_eq_added (findTracks : bound_track_parameters → FindResult)
    (sel : Option (Track → Bool)) (params : List bound_track_parameters)
    (st : TrackFindingState) :
    (trackFindingLoop findTracks sel 0 params st).tracks =
      st.tracks ++ (List.range params.length).flatMap
        (tracksAddedAt findTracks sel params st) := by
  rw [trackFindingLoop_tracks_eq]
  congr 1
  apply List.flatMap_congr
  intro i _
  cases hp : params[i]? with
  | none => simp [tracksAddedAt, hp]
  | some p => rw [tracksAddedAt_eq findTracks sel params st i p hp]

/-- C20 as stated fails: in a run of `demoAlgorithms` over the events 0 and 1,
the track copied to the output container for the seed at index 0 of event 1
carries the seed number 1, not 0. -/
theorem seed_number_differs_from_seed_index :
    tracksAddedAt demoAlgorithms.findTracks demoAlgorithms.m_trackSelector
        (eventCollections demoAlgorithms true 1).params
        (eventLoop demoAlgorithms true [0] RunState.init).finding 0 =
        [{ content := 7, trackGroup := 1 }] ∧
      ¬ (∀ t ∈ tracksAddedAt demoAlgorithms.findTracks demoAlgorithms.m_trackSelector
          (eventCollections demoAlgorithms true 1).params
          (eventLoop demoAlgorithms true [0] RunState.init).finding 0, t.trackGroup = 0) := by
  refine ⟨by decide, by decide⟩

/-- C20, amended: every track that the loop copies to the output container for
the seed at index `iseed` of the track parameter estimates of an event carries
the value `nSeed - 1` taken after `nSeed` was incremented for that seed, which
is the number of track parameter estimates of all events processed before
plus `iseed` (`unsigned int` arithmetic); it is `iseed` when no event
processed before had an estimate.  The tracks copied to the output container
during the event are exactly those of its iterations. -/
theorem seed_number_of_output_tracks (alg : Algorithms) (run_cpu : Bool) (es : List Nat)
    (event iseed : Nat) (t : Track)
    (ht : t ∈ tracksAddedAt alg.findTracks alg.m_trackSelector
      (eventCollections alg run_cpu event).params
      (eventLoop alg run_cpu es RunState.init).finding iseed) :
    t.trackGroup =
        ((es.map (fun e => (eventCollections alg run_cpu e).params.length)).sum + iseed)
          % UINT_MOD ∧
      ((es.map (fun e => (eventCollections alg run_cpu e).params.length)).sum = 0 →
        iseed < UINT_MOD → t.trackGroup = iseed) ∧
      (trackFindingLoop alg.findTracks alg.m_trackSelector 0
          (eventCollections alg run_cpu event).params
          (eventLoop alg run_cpu es RunState.init).finding).tracks =
        (eventLoop alg run_cpu es RunState.init).finding.tracks ++
          (List.range (eventCollections alg run_cpu event).params.length).flatMap
            (tracksAddedAt alg.findTracks alg.m_trackSelector
              (eventCollections alg run_cpu event).params
              (eventLoop alg run_cpu es RunState.init).finding) := by
  have hgroup : t.trackGroup =
      ((es.map (fun e => (eventCollections alg run_cpu e).params.length)).sum + iseed)
        % UINT_MOD := by
    cases hp : (eventCollections alg run_cpu event).params[iseed]? with
    | none => simp [tracksAddedAt, hp] at ht
    | some p =>
      rw [tracksAddedAt_eq _ _ _ _ _ p hp] at ht
      rw [trackGroup_of_mem_tracksOfSeed _ _ _ _ _ ht]
      have h := eventLoop_nSeed alg run_cpu es RunState.init
      simp only [RunState.init, TrackFindingState.init, Nat.zero_add] at h
      simp only [RunState.init, TrackFindingState.init]
      unfold UINT_MOD at h ⊢
      omega
  refine ⟨hgroup, ?_, trackFindingLoop_tracks_eq_added _ _ _ _⟩
  intro hzero hlt
  rw [hgroup, hzero, Nat.zero_add]
  exact Nat.mod_eq_of_lt hlt

theorem seed_number_of_output_tracks_witness :
    ({ content := 7, trackGroup := 2 } : Track) ∈
        tracksAddedAt demoAlgorithms.findTracks demoAlgorithms.m_trackSelector
          (eventCollections demoAlgorithms true 1).params
          (eventLoop demoAlgorithms true [0, 5] RunState.init).finding 0 ∧
      ({ content := 7, trackGroup := 2 } : Track).trackGroup = (2 + 0) % UINT_MOD :=
  ⟨by decide,
    (seed_number_of_output_tracks demoAlgorithms true [0, 5] 1 0
      { content := 7, trackGroup := 2 } (by decide)).1⟩

/-! ## Properties of the geometry objects, enumerations and conversions -/

/-- C11: an object constructed from the value `g` reports `g` as its geometry
identifier, whatever the concrete class supplies as binning position. -/
theorem fromGeometryId_geometryId (g : GeometryIdentifier)
    (binningPosition : GeometryContext → BinningValue → point3) :
    (GeometryObject.fromGeometryId g binningPosition).geometryId = g :=
  rfl

theorem assign_self (store : ObjectStore) (a : Nat) :
    GeometryObject.assign store a a = store := by
  simp [GeometryObject.assign]

/-- C12: after the assignment `a = b` of the objects at the addresses `a` and
`b`, the identifier of `a` is the one `b` had, and `b` still has it; the
assignment of an object to itself leaves the store, hence the identifier of
the object, as it was.  Nothing else is written: the binning position of `a`
and every object at another address are as before. -/
theorem assign_geometryId (store : ObjectStore) (a b : Nat) :
    ((GeometryObject.assign store a b) a).geometryId = (store b).geometryId ∧
      ((GeometryObject.assign store a b) b).geometryId = (store b).geometryId ∧
      GeometryObject.assign store a a = store ∧
      ((GeometryObject.assign store a a) a).geometryId = (store a).geometryId ∧
      ((GeometryObject.assign store a b) a).binningPosition = (store a).binningPosition ∧
      (∀ c : Nat, c ≠ a → (GeometryObject.assign store a b) c = store c) := by
  by_cases hab : b = a
  · subst hab
    rw [assign_self]
    exact ⟨rfl, rfl, rfl, rfl, rfl, fun _ _ => rfl⟩
  · have hassign : GeometryObject.assign store a b =
        Function.update store a { store a with m_geometryId := (store b).m_geometryId } := by
      simp [GeometryObject.assign, hab]
    refine ⟨?_, ?_, assign_self store a, by rw [assign_self], ?_, ?_⟩
    · rw [hassign, Function.update_same]
      rfl
    · rw [hassign, Function.update_noteq hab]
    · rw [hassign, Function.update_same]
    · intro c hc
      rw [hassign, Function.update_noteq hc]

/-- C13: the centre components have the indices 0, 1, 2 and the rotation
components the indices 3, 4, 5; the six indices are pairwise distinct, each of
them is smaller than `eAlignmentSize`, and `eAlignmentSize` is 6, the number
of components; the six indices are, in order, the positions of an
`AlignmentVector`. -/
theorem alignment_indices_layout :
    [eAlignmentCenter0, eAlignmentCenter1, eAlignmentCenter2] = [0, 1, 2] ∧
      [eAlignmentRotation0, eAlignmentRotation1, eAlignmentRotation2] = [3, 4, 5] ∧
      alignmentComponents.Nodup ∧
      (∀ i ∈ alignmentComponents, i < eAlignmentSize) ∧
      eAlignmentSize = 6 ∧
      alignmentComponents.length = eAlignmentSize ∧
      alignmentComponents = (List.finRange eAlignmentSize).map Fin.val := by
  refine ⟨by decide, by decide, by decide, by decide, by decide, by decide, by decide⟩

/-- C14: every enumerator of `CombinatorialKalmanFilterError` and of
`SurfaceError` has an integer value different from 0, the value that an error
code reads as success: the values are 1 to 5, and 1. -/
theorem error_values_nonzero :
    (∀ e : CombinatorialKalmanFilterError, e.value ≠ 0) ∧
      (∀ e : SurfaceError, e.value ≠ 0) ∧
      [CombinatorialKalmanFilterError.UpdateFailed.value,
        CombinatorialKalmanFilterError.SmoothFailed.value,
        CombinatorialKalmanFilterError.OutputConversionFailed.value,
        CombinatorialKalmanFilterError.MeasurementSelectionFailed.value,
        CombinatorialKalmanFilterError.PropagationReachesMaxSteps.value] = [1, 2, 3, 4, 5] ∧
      SurfaceError.GlobalPositionNotOnSurface.value = 1 := by
  refine ⟨?_, ?_, by decide, by decide⟩
  · intro e
    cases e <;> decide
  · intro e
    cases e
    decide

/-- C18: the bound vector returned by `transformFreeToCurvilinearParameters`
has both local coordinates equal to zero, for every time, direction and charge
over momentum (whatever the angle helpers return) and for every time, pair of
angles and charge over momentum. -/
theorem curvilinear_local_coordinates_zero (phi theta : point3 → scalar)
    (time qOverP phi0 theta0 : scalar) (direction : point3) :
    (transformFreeToCurvilinearParameters phi theta time direction qOverP).eBoundLoc0 = 0 ∧
      (transformFreeToCurvilinearParameters phi theta time direction qOverP).eBoundLoc1 = 0 ∧
      (transformFreeToCurvilinearParametersAngles time phi0 theta0 qOverP).eBoundLoc0 = 0 ∧
      (transformFreeToCurvilinearParametersAngles time phi0 theta0 qOverP).eBoundLoc1 = 0 :=
  ⟨rfl, rfl, rfl, rfl⟩

/-- C21: in every event, the track parameter estimation of the CUDA path and,
under `run_cpu`, that of the CPU path are called with the same magnetic field
vector, whose first two components are zero and whose third component is
`bFieldInZ` of the seed finder configuration. -/
theorem track_params_field_vector (alg : Algorithms) (run_cpu : Bool) (event : Nat) :
    (fieldVector alg).x = 0 ∧ (fieldVector alg).y = 0 ∧
      (fieldVector alg).z = alg.finder_config.bFieldInZ ∧
      (eventCollections alg run_cpu event).params_cuda =
        alg.tp_cuda (eventCollections alg run_cpu event).spacepoints_per_event_cuda
          (eventCollections alg run_cpu event).seeds_cuda
          { x := 0, y := 0, z := alg.finder_config.bFieldInZ } ∧
      (run_cpu = true →
        (eventCollections alg run_cpu event).params =
          alg.tp (eventCollections alg run_cpu event).spacepoints_per_event
            (eventCollections alg run_cpu event).seeds
            { x := 0, y := 0, z := alg.finder_config.bFieldInZ }) := by
  refine ⟨rfl, rfl, rfl, rfl, ?_⟩
  intro h
  subst h
  rfl

theorem track_params_field_vector_witness :
    (eventCollections probeAlgorithms true 4).params =
        [{ vector := [0, 0, 2], covariance := [] }] ∧
      (eventCollections probeAlgorithms true 4).params_cuda =
        [{ vector := [0, 0, 2], covariance := [] }] :=
  ⟨(track_params_field_vector probeAlgorithms true 4).2.2.2.2 rfl,
    (track_params_field_vector probeAlgorithms true 4).2.2.2.1⟩

/-- C22: `binningPositionValue(gctx, bValue)` is the cast helper applied to the
binning position of the object for `gctx` and `bValue`, and to `bValue`; two
objects with the same binning position have the same binning position value,
and assigning another geometry identifier to an object does not change
it. -/
theorem binningPositionValue_eq (cast : point3 → BinningValue → scalar) (o : GeometryObject)
    (gctx : GeometryContext) (bValue : BinningValue) :
    o.binningPositionValue cast gctx bValue = cast (o.binningPosition gctx bValue) bValue ∧
      (∀ o2 : GeometryObject, o2.binningPosition = o.binningPosition →
        o2.binningPositionValue cast gctx bValue = o.binningPositionValue cast gctx bValue) ∧
      (∀ g : GeometryIdentifier,
        (o.assignGeometryId g).binningPositionValue cast gctx bValue =
          o.binningPositionValue cast gctx bValue) := by
  refine ⟨rfl, ?_, fun _ => rfl⟩
  intro o2 h
  unfold GeometryObject.binningPositionValue
  rw [h]

theorem binningPositionValue_eq_witness :
    demoObject.binningPositionValue demoCast 0 1 = 2 ∧
      (GeometryObject.fromGeometryId 9 demoObject.binningPosition).binningPositionValue
          demoCast 0 1 =
        demoObject.binningPositionValue demoCast 0 1 :=
  ⟨(binningPositionValue_eq demoCast demoObject 0 1).1,
    (binningPositionValue_eq demoCast demoObject 0 1).2.1
      (GeometryObject.fromGeometryId 9 demoObject.binningPosition) rfl⟩

end traccc
